import Mathlib

/-! # nevm: the fetch / validate / execute cycle of `src/nevm.c`

A shallow embedding of the virtual machine of `nevm.c`.

Modelling conventions (each one is visible in the definitions below):

* Memory is a total map from offsets to bytes together with the break `brk`.
  Offsets are natural numbers: `machine.mem + addr` is pointer arithmetic and
  does not wrap at 32 bits, whereas every `uint32_t` expression of the source
  is reduced `% 2 ^ 32` where the C code computes it.
* Multi-byte cells are little-endian.
* `realloc` is taken from its library contract: bytes below the old size are
  kept, the bytes it adds have indeterminate content, and it may fail.  The
  indeterminate content and the failure are supplied by the `Host`.
* The pointer `op` of `run` is the offset `ip` into the current buffer: the
  fields `op->...` are read from the memory at `ip` at the moment the source
  reads them.  The source computes `op` once per cycle, right after the fetch
  check; when a later `check_brk` of the same cycle reaches `realloc`, the
  buffer may move, the source goes on through the dangling `op`, and C leaves
  the rest of the cycle undefined.  The embedding is therefore exact on the
  cycles that are `settled` (no growth of the buffer after the fetch check).
* A load or store of the source outside the block `machine.mem` points to is
  undefined in C; the memory of the embedding is total.  The embedding is
  exact on the cycles that are `inside` (instruction, operand cells and `@`
  ranges end at or below the break, the sums taken in the natural numbers).
* The theorems about what the executor computes, and about the outcome of
  validation after the opcode check, take the cycle `settled` and `inside`;
  the theorems about the growth of the buffer, the opcode and tag tables, the
  write frame and the fatal errors hold for every cycle of the embedding.
* Floating point values are bit patterns; their arithmetic and conversions are
  supplied by the `Host`.  Integer operations whose result C leaves undefined
  (division by zero, `INT_MIN / -1`, shift counts outside the promoted width)
  are also supplied by the `Host`, which may answer with a trap.
* Signed integer arithmetic, including a left shift within the promoted
  width, wraps (two's complement); a right shift of a negative value is
  arithmetic; a conversion to a narrower integer type keeps the low bits.
-/

namespace Nevm

/-! ## Bytes and memory -/

abbrev Byte := Fin 256

abbrev Mem := Nat → Byte

/-- The byte holding the low eight bits of `v`. -/
def byteOf (v : Nat) : Byte := ⟨v % 256, Nat.mod_lt _ (by decide)⟩

/-- Little-endian read of `w` bytes at offset `a`: `indirect(a, T)` for an
unsigned `T` of `w` bytes. -/
def loadN (mem : Mem) (a : Nat) : Nat → Nat
  | 0 => 0
  | w + 1 => (mem a).val + 256 * loadN mem (a + 1) w

/-- Little-endian write of the low `w` bytes of `v` at offset `a`:
`indirect(a, T) = v`. -/
def storeN (mem : Mem) (a w v : Nat) : Mem :=
  fun x => if a ≤ x ∧ x < a + w then byteOf (v / 256 ^ (x - a)) else mem x

/-- Model of `memmove(mem + dst, mem + src, n)`. -/
def memmove (mem : Mem) (dst src n : Nat) : Mem :=
  fun x => if dst ≤ x ∧ x < dst + n then mem (src + (x - dst)) else mem x

/-- Model of `static struct { char *mem; uint32_t brk; } machine`. -/
structure Machine where
  mem : Mem
  brk : Nat

/-- Model of `machine = { NULL, 0 }`. -/
def machine0 : Machine := { mem := fun _ => 0, brk := 0 }

/-- Model of `config = { 4 * 1024 * 1024 }`; the field is never assigned. -/
def brk_max : Nat := 4 * 1024 * 1024

/-- Model of `sizeof(operation)`: four `char`s and three 4-byte unions. -/
def op_size : Nat := 16

/-- C types that occur as the `ctype` argument of `val` and `indirect`. -/
inductive CType where
  | u8 | i8 | u16 | i16 | u32 | i32 | u64 | i64 | f32 | f64
  deriving DecidableEq, Repr

/-- What the source leaves to the platform. -/
structure Host where
  /-- Answer of `realloc(mem, new)` on a buffer of `old` bytes: `none` when it
  returns `NULL`, otherwise the indeterminate content of the added bytes. -/
  alloc : Nat → Nat → Option Mem
  /-- Conversion `(float) v` / `(double) v` of an integer value. -/
  int_to_fp : CType → Int → Nat
  /-- Conversion between `float` and `double` (source kind, target kind). -/
  fp_to_fp : CType → CType → Nat → Nat
  /-- Conversion of a floating value (source kind) to an integer type. -/
  fp_to_int : CType → CType → Nat → Int
  /-- Unary minus on a floating type. -/
  fp_neg : CType → Nat → Nat
  /-- Binary operator (by its opcode) on a floating type;
  for `%` this is `fmodf` / `fmod`. -/
  fp_bin : CType → Nat → Nat → Nat → Nat
  /-- Integer operator (by its opcode) at operands where C leaves the result
  undefined: `none` is a trap, otherwise the value the host produces. -/
  undef : CType → Nat → Int → Int → Option Int

/-! ## `check_brk`, `assert_brk` -/

/-- Model of `realloc(machine.mem, addr)` on a buffer of `old` bytes. -/
def realloc (h : Host) (mem : Mem) (old addr : Nat) : Option Mem :=
  match h.alloc old addr with
  | none => none
  | some fresh => some (fun x => if old ≤ x ∧ x < addr then fresh x else mem x)

/-- Model of `check_brk`: the returned integer and the machine afterwards.
The value of `config.brk_max` read by the function is its argument `max`. -/
def check_brk (h : Host) (max addr : Nat) (m : Machine) : Int × Machine :=
  if addr > m.brk then
    if addr > max then (-1, m)
    else
      match realloc h m.mem m.brk addr with
      | none => (-1, m)
      | some newmem => (0, { mem := newmem, brk := addr })
  else (0, m)

/-- The fatal exits of `run` and its helpers, named after the error taxonomy:
`InvalidIP` is "Invalid IP", `NoMemory` is "Could not create memory for
address", `InvalidType` is "Invalid type at", `InvalidOp` is "Invalid
operation at" and `InvalidTypeForOp` is "Floating type cannot be used with
bitwise operator". -/
inductive Error where
  | InvalidIP | NoMemory | InvalidType | InvalidOp | InvalidTypeForOp
  deriving DecidableEq, Repr

/-- Result of a validation step: the machine, or a `fatal` exit together with
the machine at the moment of the exit. -/
abbrev Checked := Except (Error × Machine) Machine

/-- Model of `assert_brk`. -/
def assert_brk (h : Host) (addr : Nat) (m : Machine) : Checked :=
  if (check_brk h brk_max addr m).1 ≠ 0 then
    .error (Error.NoMemory, (check_brk h brk_max addr m).2)
  else .ok (check_brk h brk_max addr m).2

/-! ## Instruction fields -/

/-- Reduction of a value to `uint32_t`. -/
def u32 (v : Nat) : Nat := v % 2 ^ 32

/-- Field `op->op`. -/
def op_op (mem : Mem) (ip : Nat) : Nat := (mem ip).val
/-- Field `op->dst_type`. -/
def op_dst_type (mem : Mem) (ip : Nat) : Nat := (mem (ip + 1)).val
/-- Field `op->src1_type`. -/
def op_src1_type (mem : Mem) (ip : Nat) : Nat := (mem (ip + 2)).val
/-- Field `op->src2_type`. -/
def op_src2_type (mem : Mem) (ip : Nat) : Nat := (mem (ip + 3)).val
/-- Offset of `op->dst`, that is `caddr2addr(&op->dst.u)`. -/
def dst_fld (ip : Nat) : Nat := ip + 4
/-- Offset of `op->src1`. -/
def src1_fld (ip : Nat) : Nat := ip + 8
/-- Offset of `op->src2`. -/
def src2_fld (ip : Nat) : Nat := ip + 12

/-- Character codes of the type tags. -/
def tU : Nat := 85
def tI : Nat := 73
def tF : Nat := 70
def tz : Nat := 122
def tl : Nat := 108
def td : Nat := 100
def tu : Nat := 117
def ti : Nat := 105
def tf : Nat := 102
def th : Nat := 104
def ts : Nat := 115
def tc : Nat := 99
def tb : Nat := 98

/-- Character codes of the opcodes. -/
def oNop : Nat := 95
def oAssign : Nat := 61
def oBlock : Nat := 64
def oNot : Nat := 33
def oAnd : Nat := 38
def oOr : Nat := 124
def oXor : Nat := 94
def oShl : Nat := 60
def oShr : Nat := 62
def oNeg : Nat := 126
def oAdd : Nat := 43
def oSub : Nat := 45
def oMul : Nat := 42
def oDiv : Nat := 47
def oRem : Nat := 37
def oHalt : Nat := 35

/-! ## Validation -/

/-- Model of `validate_arg`; `addr + k` is `uint32_t` arithmetic. -/
def validate_arg (h : Host) (addr arg_type : Nat) (m : Machine) : Checked :=
  if arg_type = tU ∨ arg_type = tI ∨ arg_type = tF then .ok m
  else if arg_type = tz ∨ arg_type = tl ∨ arg_type = td then assert_brk h (u32 (addr + 8)) m
  else if arg_type = tu ∨ arg_type = ti ∨ arg_type = tf then assert_brk h (u32 (addr + 4)) m
  else if arg_type = th ∨ arg_type = ts then assert_brk h (u32 (addr + 2)) m
  else if arg_type = tc ∨ arg_type = tb then assert_brk h (u32 (addr + 1)) m
  else .error (Error.InvalidType, m)

/-- Model of `validate_op`: `true` when the switch reaches `break`. -/
def validate_op (op : Nat) : Bool :=
  op = oNop || op = oAssign || op = oBlock || op = oNot || op = oAnd || op = oOr
    || op = oXor || op = oShl || op = oShr || op = oNeg || op = oAdd || op = oSub
    || op = oMul || op = oDiv || op = oRem || op = oHalt

/-! ## Typed values: `valaddr`, `valsize`, `val` -/

namespace CType

/-- Width in bits. -/
def bits : CType → Nat
  | u8 => 8 | i8 => 8 | u16 => 16 | i16 => 16 | u32 => 32 | i32 => 32
  | u64 => 64 | i64 => 64 | f32 => 32 | f64 => 64

/-- Width in bytes, `sizeof`. -/
def size (c : CType) : Nat := c.bits / 8

def signed : CType → Bool
  | i8 => true | i16 => true | i32 => true | i64 => true | _ => false

def isFloat : CType → Bool
  | f32 => true | f64 => true | _ => false

/-- The integer promotion: types narrower than `int` are computed in `int`. -/
def promote : CType → CType
  | u8 => i32 | i8 => i32 | u16 => i32 | i16 => i32 | c => c

/-- Bit pattern of the integer `v` converted to the integer type `c`. -/
def enc (c : CType) (v : Int) : Nat := (v % 2 ^ c.bits).toNat

/-- Integer value of a bit pattern of the integer type `c`. -/
def dec (c : CType) (b : Nat) : Int :=
  if c.signed = true ∧ 2 ^ (c.bits - 1) ≤ b then (b : Int) - 2 ^ c.bits else (b : Int)

end CType

/-- Model of `valaddr(arg, type)`; `fld` is the offset of the operand field. -/
def valaddr (mem : Mem) (fld type : Nat) : Nat :=
  if type = tU then fld
  else if type = tI then fld
  else if type = tF then fld
  else loadN mem fld 4

/-- Model of `valsize(type)`. -/
def valsize (type : Nat) : Nat :=
  if type = tU then 4
  else if type = tI then 4
  else if type = tF then 4
  else if type = tz then 8
  else if type = tl then 8
  else if type = td then 8
  else if type = tu then 4
  else if type = ti then 4
  else if type = tf then 4
  else if type = th then 2
  else if type = ts then 2
  else if type = tc then 1
  else if type = tb then 1
  else 0

/-- What `val` reads before its cast: an integer, or a floating bit pattern
with its kind. -/
inductive Raw where
  | int (v : Int)
  | flt (k : CType) (b : Nat)

/-- The operand of `val(arg, type, ctype)` before the cast to `ctype`:
`(arg).u`, `(arg).i`, `(arg).f` or `indirect((arg).u, T)`. -/
def readval (mem : Mem) (fld type : Nat) : Raw :=
  if type = tU then .int (loadN mem fld 4)
  else if type = tI then .int (CType.i32.dec (loadN mem fld 4))
  else if type = tF then .flt .f32 (loadN mem fld 4)
  else if type = tz then .int (loadN mem (loadN mem fld 4) 8)
  else if type = tl then .int (CType.i64.dec (loadN mem (loadN mem fld 4) 8))
  else if type = td then .flt .f64 (loadN mem (loadN mem fld 4) 8)
  else if type = tu then .int (loadN mem (loadN mem fld 4) 4)
  else if type = ti then .int (CType.i32.dec (loadN mem (loadN mem fld 4) 4))
  else if type = tf then .flt .f32 (loadN mem (loadN mem fld 4) 4)
  else if type = th then .int (loadN mem (loadN mem fld 4) 2)
  else if type = ts then .int (CType.i16.dec (loadN mem (loadN mem fld 4) 2))
  else if type = tc then .int (loadN mem (loadN mem fld 4) 1)
  else if type = tb then .int (CType.i8.dec (loadN mem (loadN mem fld 4) 1))
  else .int 0

/-- The cast `(ctype) x`, as a bit pattern of `ctype`. -/
def cast (h : Host) (c : CType) : Raw → Nat
  | .int v => if c.isFloat = true then h.int_to_fp c v else c.enc v
  | .flt k b =>
    if c.isFloat = true then (if k = c then b else h.fp_to_fp k c b)
    else c.enc (h.fp_to_int k c b)

/-- Model of `val(arg, type, ctype)`, as a bit pattern of `ctype`. -/
def val (h : Host) (mem : Mem) (fld type : Nat) (c : CType) : Nat :=
  cast h c (readval mem fld type)

/-! ## Operators -/

/-- The expression `cop x` of `unary_op` at type `c`, for `+` (opcode `=`),
`-` (opcode `~`) and `~` (opcode `!`), as a bit pattern of `c`. -/
def unary_cop (h : Host) (c : CType) (op x : Nat) : Nat :=
  if c.isFloat = true then (if op = oAssign then x else h.fp_neg c x)
  else
    c.enc
      (if op = oAssign then c.dec x
       else if op = oNeg then c.promote.dec (c.promote.enc (- c.dec x))
       else c.promote.dec (2 ^ c.promote.bits - 1 - c.promote.enc (c.dec x)))

/-- The expression `a cop b` on the promoted integer type `p`; `none` is a
trap of the host. -/
def int_bin (h : Host) (p : CType) (op : Nat) (a b : Int) : Option Int :=
  if op = oAdd then some (p.dec (p.enc (a + b)))
  else if op = oSub then some (p.dec (p.enc (a - b)))
  else if op = oMul then some (p.dec (p.enc (a * b)))
  else if op = oDiv then
    if b = 0 ∨ (p.signed = true ∧ a = - 2 ^ (p.bits - 1) ∧ b = -1) then h.undef p op a b
    else some (Int.tdiv a b)
  else if op = oRem then
    if b = 0 ∨ (p.signed = true ∧ a = - 2 ^ (p.bits - 1) ∧ b = -1) then h.undef p op a b
    else some (Int.tmod a b)
  else if op = oAnd then some (p.dec (p.enc a &&& p.enc b))
  else if op = oOr then some (p.dec (p.enc a ||| p.enc b))
  else if op = oXor then some (p.dec (p.enc a ^^^ p.enc b))
  else if op = oShl then
    if 0 ≤ b ∧ b < p.bits then some (p.dec (p.enc (a * 2 ^ b.toNat)))
    else h.undef p op a b
  else
    if 0 ≤ b ∧ b < p.bits then some (a / 2 ^ b.toNat)
    else h.undef p op a b

/-- The expression `x cop y` of `binary_op` at type `c`, as a bit pattern of
`c`; `none` is a trap of the host. -/
def binary_cop (h : Host) (c : CType) (op x y : Nat) : Option Nat :=
  if c.isFloat = true then some (h.fp_bin c op x y)
  else
    match int_bin h c.promote op (c.dec x) (c.dec y) with
    | none => none
    | some r => some (c.enc r)

/-- The case labels of `unary_op` and `binary_op`: the C type of the
assignment selected by a destination tag. -/
def dst_ctype (t : Nat) : Option CType :=
  if t = tU then some .u32
  else if t = tI then some .i32
  else if t = tF then some .f32
  else if t = tz then some .u64
  else if t = tl then some .i64
  else if t = td then some .f64
  else if t = tu then some .u32
  else if t = ti then some .i32
  else if t = tf then some .f32
  else if t = th then some .u16
  else if t = ts then some .i16
  else if t = tc then some .u8
  else if t = tb then some .i8
  else none

/-- The case labels of `unary_op_nofloat` and `binary_op_nofloat`. -/
def dst_ctype_nofloat (t : Nat) : Option CType :=
  if t = tU then some .u32
  else if t = tI then some .i32
  else if t = tz then some .u64
  else if t = tl then some .i64
  else if t = tu then some .u32
  else if t = ti then some .i32
  else if t = th then some .u16
  else if t = ts then some .i16
  else if t = tc then some .u8
  else if t = tb then some .i8
  else none

/-- Where the selected case stores: `op->dst.u` itself for `U`, `I`, `F`,
and `indirect(op->dst.u, T)` otherwise. -/
def dst_addr (mem : Mem) (ip t : Nat) : Nat :=
  if t = tU ∨ t = tI ∨ t = tF then dst_fld ip else loadN mem (dst_fld ip) 4

/-- Model of `unary_op(op, cop)` (`nofloat = false`) and of
`unary_op_nofloat(op, cop)` (`nofloat = true`). -/
def unary_op (h : Host) ( nofloat : Bool) (cop : Nat) (mem : Mem) (ip : Nat) : Mem :=
  match (if nofloat then dst_ctype_nofloat (op_dst_type mem ip)
         else dst_ctype (op_dst_type mem ip)) with
  | none => mem
  | some c =>
    storeN mem (dst_addr mem ip (op_dst_type mem ip)) c.size
      (unary_cop h c cop (val h mem (src1_fld ip) (op_src1_type mem ip) c))

/-- Model of `binary_op(op, cop)` (`nofloat = false`) and of
`binary_op_nofloat(op, cop)` (`nofloat = true`); `none` is a trap. -/
def binary_op (h : Host) ( nofloat : Bool) (cop : Nat) (mem : Mem) (ip : Nat) : Option Mem :=
  match (if nofloat then dst_ctype_nofloat (op_dst_type mem ip)
         else dst_ctype (op_dst_type mem ip)) with
  | none => some mem
  | some c =>
    match binary_cop h c cop (val h mem (src1_fld ip) (op_src1_type mem ip) c)
        (val h mem (src2_fld ip) (op_src2_type mem ip) c) with
    | none => none
    | some r => some (storeN mem (dst_addr mem ip (op_dst_type mem ip)) c.size r)

/-- The `case '%'` of the dispatch switch: `fmodf` / `fmod` for the tags `F`,
`f`, `d`, and `binary_op_nofloat(op, %)` otherwise. -/
def rem_op (h : Host) (mem : Mem) (ip : Nat) : Option Mem :=
  if op_dst_type mem ip = tF then
    some (storeN mem (dst_fld ip) 4
      (h.fp_bin .f32 oRem (val h mem (src1_fld ip) (op_src1_type mem ip) .f32)
        (val h mem (src2_fld ip) (op_src2_type mem ip) .f32)))
  else if op_dst_type mem ip = tf then
    some (storeN mem (loadN mem (dst_fld ip) 4) 4
      (h.fp_bin .f32 oRem (val h mem (src1_fld ip) (op_src1_type mem ip) .f32)
        (val h mem (src2_fld ip) (op_src2_type mem ip) .f32)))
  else if op_dst_type mem ip = td then
    some (storeN mem (loadN mem (dst_fld ip) 4) 8
      (h.fp_bin .f64 oRem (val h mem (src1_fld ip) (op_src1_type mem ip) .f64)
        (val h mem (src2_fld ip) (op_src2_type mem ip) .f64)))
  else binary_op h true oRem mem ip

/-- The byte count of the block transfer,
`valsize(op->dst_type) * val(op->src2, op->src2_type, uint32_t)` in
`uint32_t` arithmetic. -/
def block_count (h : Host) (mem : Mem) (ip : Nat) : Nat :=
  u32 (valsize (op_dst_type mem ip) * val h mem (src2_fld ip) (op_src2_type mem ip) .u32)

/-! ## One cycle of `run` -/

/-- How a cycle of the loop in `run` ends: the loop goes on, `run` returns
(`#`), the process exits through `fatal`, or the host traps inside the
operator. -/
inductive Outcome where
  | running (m : Machine)
  | halted (m : Machine)
  | fatal (e : Error) (m : Machine)
  | trapped (m : Machine)

/-- The machine at the end of the cycle. -/
def Outcome.machine : Outcome → Machine
  | .running m => m
  | .halted m => m
  | .fatal _ m => m
  | .trapped m => m

/-- The fetch of `run`: `check_brk(ip + sizeof(operation))`, the sum being
passed as `uint32_t`. -/
def fetch (h : Host) (ip : Nat) (m : Machine) : Checked :=
  if (check_brk h brk_max (u32 (ip + op_size)) m).1 ≠ 0 then
    .error (Error.InvalidIP, (check_brk h brk_max (u32 (ip + op_size)) m).2)
  else .ok (check_brk h brk_max (u32 (ip + op_size)) m).2

/-- The call of `validate_op` in `run`. -/
def check_op (ip : Nat) (m : Machine) : Checked :=
  if validate_op (op_op m.mem ip) = true then .ok m else .error (Error.InvalidOp, m)

/-- The three calls of `validate_arg` in `run`, each reading its operand and
tag through `op` when it is called; `op` is taken at offset `ip` of the buffer
as the previous call left it, which is the source as long as no call has
grown the buffer (`settled`). -/
def validate_args (h : Host) (ip : Nat) (m : Machine) : Checked := do
  let m2 ← validate_arg h (loadN m.mem (dst_fld ip) 4) (op_dst_type m.mem ip) m
  let m3 ← validate_arg h (loadN m2.mem (src1_fld ip) 4) (op_src1_type m2.mem ip) m2
  validate_arg h (loadN m3.mem (src2_fld ip) 4) (op_src2_type m3.mem ip) m3

/-- The switch "op-specific validation" of `run`; the instruction is read at
offset `ip` of the current buffer, which is the source on `settled` cycles. -/
def validate_specific (h : Host) (ip : Nat) (m : Machine) : Checked :=
  if op_op m.mem ip = oBlock then do
    let m5 ← assert_brk h
      (u32 (valaddr m.mem (dst_fld ip) (op_dst_type m.mem ip) + block_count h m.mem ip)) m
    assert_brk h
      (u32 (valaddr m5.mem (src1_fld ip) (op_src1_type m5.mem ip) + block_count h m5.mem ip)) m5
  else if op_op m.mem ip = oNot ∨ op_op m.mem ip = oAnd ∨ op_op m.mem ip = oOr
      ∨ op_op m.mem ip = oXor ∨ op_op m.mem ip = oShl ∨ op_op m.mem ip = oShr then
    if op_dst_type m.mem ip = tF ∨ op_dst_type m.mem ip = tf ∨ op_dst_type m.mem ip = td then
      .error (Error.InvalidTypeForOp, m)
    else .ok m
  else .ok m

/-- Everything `run` does in a cycle before it advances the instruction
pointer. -/
def validate (h : Host) (m : Machine) : Checked := do
  let m1 ← fetch h (loadN m.mem 0 4) m
  let m1 ← check_op (loadN m.mem 0 4) m1
  let m4 ← validate_args h (loadN m.mem 0 4) m1
  validate_specific h (loadN m.mem 0 4) m4

/-- The memory after `indirect(0, uint32_t) = ip + sizeof(operation)`. -/
def advance (mem : Mem) (ip : Nat) : Mem := storeN mem 0 4 (u32 (ip + op_size))

/-- The end of a `case` of the dispatch switch: the loop goes on with the
memory the operator has produced, unless the host trapped inside it. -/
def finish (brk : Nat) (mem : Mem) : Option Mem → Outcome
  | none => .trapped { mem := mem, brk := brk }
  | some mem2 => .running { mem := mem2, brk := brk }

/-- The dispatch switch of `run`, on the memory `mem` in which cell 0 has
already been advanced; `op->op` and the other fields are read from `mem`. -/
def dispatch (h : Host) (brk : Nat) (mem : Mem) (ip : Nat) : Outcome :=
  if op_op mem ip = oNop then .running { mem := mem, brk := brk }
  else if op_op mem ip = oAssign then finish brk mem (some (unary_op h false oAssign mem ip))
  else if op_op mem ip = oBlock then
    finish brk mem (some (memmove mem (valaddr mem (dst_fld ip) (op_dst_type mem ip))
      (valaddr mem (src1_fld ip) (op_src1_type mem ip)) (block_count h mem ip)))
  else if op_op mem ip = oNot then finish brk mem (some (unary_op h true oNot mem ip))
  else if op_op mem ip = oAnd then finish brk mem (binary_op h true oAnd mem ip)
  else if op_op mem ip = oOr then finish brk mem (binary_op h true oOr mem ip)
  else if op_op mem ip = oXor then finish brk mem (binary_op h true oXor mem ip)
  else if op_op mem ip = oShl then finish brk mem (binary_op h true oShl mem ip)
  else if op_op mem ip = oShr then finish brk mem (binary_op h true oShr mem ip)
  else if op_op mem ip = oNeg then finish brk mem (some (unary_op h false oNeg mem ip))
  else if op_op mem ip = oAdd then finish brk mem (binary_op h false oAdd mem ip)
  else if op_op mem ip = oSub then finish brk mem (binary_op h false oSub mem ip)
  else if op_op mem ip = oMul then finish brk mem (binary_op h false oMul mem ip)
  else if op_op mem ip = oDiv then finish brk mem (binary_op h false oDiv mem ip)
  else if op_op mem ip = oRem then finish brk mem (rem_op h mem ip)
  else if op_op mem ip = oHalt then .halted { mem := mem, brk := brk }
  else .running { mem := mem, brk := brk }

/-- What `run` does in a cycle once validation has passed; the instruction is
read and, for an immediate destination, written at offset `ip` of the
validated buffer, which is the source on `settled` cycles. -/
def execute (h : Host) (m : Machine) (ip : Nat) : Outcome :=
  dispatch h m.brk (advance m.mem ip) ip

/-- One iteration of the loop of `run` (the trace output of `print_mem`
changes no state and is left out). -/
def cycle (h : Host) (m : Machine) : Outcome :=
  match validate h m with
  | .error (e, m') => .fatal e m'
  | .ok mv => execute h mv (loadN m.mem 0 4)

/-- Model of `run` for at most `n` iterations of its loop. -/
def run (h : Host) : Nat → Machine → Outcome
  | 0, m => .running m
  | n + 1, m =>
    match cycle h m with
    | .running m' => run h n m'
    | o => o

/-! ## Concrete hosts and memories used in the examples -/

/-- A host whose allocator always succeeds and hands out bytes `0xAA`, whose
floating operations all answer zero, and which traps on undefined integer
operations. -/
def host0 : Host :=
  { alloc := fun _ _ => some (fun _ => 170)
    int_to_fp := fun _ _ => 0
    fp_to_fp := fun _ _ _ => 0
    fp_to_int := fun _ _ _ => 0
    fp_neg := fun _ _ => 0
    fp_bin := fun _ _ _ _ => 0
    undef := fun _ _ _ _ => none }

/-- The memory `rest` with the bytes `bs` placed from offset `base` on. -/
def poke (rest : Mem) (base : Nat) (bs : List Nat) : Mem :=
  fun x => if base ≤ x ∧ x < base + bs.length then byteOf (bs.getD (x - base) 0) else rest x

/-- The 16 bytes of an instruction. -/
def instr (op t0 t1 t2 dst src1 src2 : Nat) : List Nat :=
  [op, t0, t1, t2,
   dst % 256, dst / 256 % 256, dst / 65536 % 256, dst / 16777216 % 256,
   src1 % 256, src1 / 256 % 256, src1 / 65536 % 256, src1 / 16777216 % 256,
   src2 % 256, src2 / 256 % 256, src2 / 65536 % 256, src2 / 16777216 % 256]

/-- A machine of `brk` bytes whose instruction pointer is `ip` and which holds
the instruction `ins` there; every other byte is zero. -/
def boot_at (brk ip : Nat) (ins : List Nat) : Machine :=
  { mem := poke (poke (fun _ => 0) 0
      [ip % 256, ip / 256 % 256, ip / 65536 % 256, ip / 16777216 % 256]) ip ins,
    brk := brk }

/-- A machine of `brk` zero bytes whose instruction pointer is 16 and which
holds the instruction `ins` there. -/
def boot (brk : Nat) (ins : List Nat) : Machine :=
  { mem := poke (poke (fun _ => 0) 0 [16, 0, 0, 0]) 16 ins, brk := brk }

/-- The machine `m'` arises from `m` by growth of the buffer: the break does
not shrink, it moves only to a value within the ceiling, and the bytes below
the old break (and those at or past the ceiling) are kept. -/
def Grows (m m' : Machine) : Prop :=
  m.brk ≤ m'.brk ∧ (m'.brk ≤ m.brk ∨ m'.brk ≤ brk_max) ∧
    ∀ x, x < m.brk ∨ brk_max ≤ x → m'.mem x = m.mem x

/-- The machine after the fetch check of the cycle that starts in `m`. -/
def fetched (h : Host) (m : Machine) : Machine :=
  (check_brk h brk_max (u32 (loadN m.mem 0 4 + op_size)) m).2

/-- The bitwise opcodes `!`, `&`, `|`, `^`, `<`, `>`. -/
abbrev is_bitwise (op : Nat) : Prop :=
  op = oNot ∨ op = oAnd ∨ op = oOr ∨ op = oXor ∨ op = oShl ∨ op = oShr

/-- The bytes the operator of the instruction at `ip` stores to, as start and
length, read off the dispatch switch: the range of the `memmove`, the cell of
the assignment the destination tag selects, and nothing for the opcodes that
store nothing. -/
def write_range (h : Host) (mem : Mem) (ip : Nat) : Nat × Nat :=
  if op_op mem ip = oBlock then
    (valaddr mem (dst_fld ip) (op_dst_type mem ip), block_count h mem ip)
  else if op_op mem ip = oAssign ∨ op_op mem ip = oNeg ∨ op_op mem ip = oAdd
      ∨ op_op mem ip = oSub ∨ op_op mem ip = oMul ∨ op_op mem ip = oDiv
      ∨ op_op mem ip = oRem then
    match dst_ctype (op_dst_type mem ip) with
    | none => (0, 0)
    | some c => (dst_addr mem ip (op_dst_type mem ip), c.size)
  else if is_bitwise (op_op mem ip) then
    match dst_ctype_nofloat (op_dst_type mem ip) with
    | none => (0, 0)
    | some c => (dst_addr mem ip (op_dst_type mem ip), c.size)
  else (0, 0)

/-- The integer type tags. -/
abbrev is_int_tag (t : Nat) : Prop :=
  t = tU ∨ t = tI ∨ t = tz ∨ t = tl ∨ t = tu ∨ t = ti ∨ t = th ∨ t = ts ∨ t = tc ∨ t = tb

/-- The signed integer type tags. -/
abbrev is_signed_tag (t : Nat) : Prop := t = tI ∨ t = tl ∨ t = ti ∨ t = ts ∨ t = tb

/-- The integer value of an operand as the typed evaluation rule words it:
the immediate field for `U` / `I`, otherwise the cell at the operand's
offset, read at the width of its own tag and, for a signed tag, as a two's
complement number. -/
def typed_value (mem : Mem) (fld t : Nat) : Int :=
  if is_signed_tag t
      ∧ 2 ^ (8 * valsize t - 1) ≤ loadN mem (valaddr mem fld t) (valsize t) then
    (loadN mem (valaddr mem fld t) (valsize t) : Int) - 2 ^ (8 * valsize t)
  else (loadN mem (valaddr mem fld t) (valsize t) : Int)

/-- The memory of scenario 4: the bytes `A` .. `H` at offsets 64 .. 71, and
the instruction `@` with tags `c c U` at 16. -/
def copy_machine : Machine :=
  { mem := poke (boot 4096 (instr oBlock tc tc tU 66 64 6)).mem 64
      [65, 66, 67, 68, 69, 70, 71, 72],
    brk := 4096 }

/-- A machine with `ip = 248` holding `@` with tags `c c c`, destination
1024, source 2048 and its count read from the byte at offset 0 (the low byte
of the instruction pointer); the source byte at offset 2148 is 7. -/
def count_machine : Machine :=
  { mem := poke (boot_at 4096 248 (instr oBlock tc tc tc 1024 2048 0)).mem 2148 [7],
    brk := 4096 }

/-- The thirteen type tags, in the order of the `case` labels of
`validate_arg`. -/
abbrev is_tag (t : Nat) : Prop :=
  t = tU ∨ t = tI ∨ t = tF ∨ t = tz ∨ t = tl ∨ t = td ∨ t = tu ∨ t = ti ∨ t = tf
    ∨ t = th ∨ t = ts ∨ t = tc ∨ t = tb

/-- The value-producing opcodes `=`, `!`, `&`, `|`, `^`, `<`, `>`, `~`, `+`,
`-`, `*`, `/`, `%`. -/
abbrev is_value_op (op : Nat) : Prop :=
  op = oAssign ∨ op = oNot ∨ op = oAnd ∨ op = oOr ∨ op = oXor ∨ op = oShl ∨ op = oShr
    ∨ op = oNeg ∨ op = oAdd ∨ op = oSub ∨ op = oMul ∨ op = oDiv ∨ op = oRem

/-- A 4096-byte machine with `ip = 16` holding `@` with tags `c c u`,
destination 4080, source 1024 and its count read from cell 0; the source byte
at offset 1044 is 9. -/
def overrun_machine : Machine :=
  { mem := poke (boot 4096 (instr oBlock tc tc tu 4080 1024 0)).mem 1044 [9], brk := 4096 }

/-- The indirect type tags. -/
abbrev is_indirect (t : Nat) : Prop :=
  t = tz ∨ t = tl ∨ t = td ∨ t = tu ∨ t = ti ∨ t = tf ∨ t = th ∨ t = ts ∨ t = tc ∨ t = tb

/-- A machine of `brk` bytes whose instruction pointer is 16 and which holds
the instruction `ins` twice, at 16 and at 32; every other byte is zero. -/
def boot2 (brk : Nat) (ins : List Nat) : Machine :=
  { mem := poke (poke (poke (fun _ => 0) 0 [16, 0, 0, 0]) 16 ins) 32 ins, brk := brk }

/-- Two copies of `=` with tags `h u U`, destination 64 and source 63, where
the bytes at 63 and 64 are 1 and 2: the source cell overlaps the destination
cell. -/
def overlap_machine : Machine :=
  { mem := poke (boot2 4096 (instr oAssign th tu tU 64 63 0)).mem 63 [1, 2], brk := 4096 }

/-- Two copies of `=` with tags `u u U`, destination 64 and source 0: the
source cell is cell 0. -/
def ipsrc_machine : Machine := boot2 4096 (instr oAssign tu tu tU 64 0 0)

/-- Two copies of `=` with tags `U U U` and source 7: the destination is
immediate, so each instruction stores into its own destination field. -/
def immdst_machine : Machine := boot2 4096 (instr oAssign tU tU tU 0 7 0)

/-- A 4096-byte machine with `ip = 64` holding `=` with tags `U U c`, the
destination field `0x11223344`, source 7 and a source-2 operand of 5000, a
`c` cell past the break. -/
def growing_machine : Machine := boot_at 4096 64 (instr oAssign tU tU tc 287454020 7 5000)

/-! ## The cycles on which the embedding is exact -/

/-- The cycle that starts in `m` has not grown the buffer after its fetch
check.  `run` computes `op = machine.mem + ip` once, right after the fetch
check, and reads and writes the instruction through that pointer for the rest
of the cycle.  A later `check_brk` (of a `validate_arg` or of an `@` bound)
that reaches `realloc` may move the buffer and leave `op` dangling, and from
then on the source has no defined behaviour.  `validate_args`,
`validate_specific` and `execute` read the instruction at offset `ip` of the
buffer as it is when they run, so they are the source exactly on the settled
cycles.  The executor never changes the break and a fatal error carries the
machine of the failing check, so the break at the end of the cycle is the one
validation has reached. -/
abbrev settled (h : Host) (m : Machine) : Prop :=
  (cycle h m).machine.brk = (fetched h m).brk

/-- The cell of the operand in field `fld` with tag `t` ends inside the
buffer: for an indirect tag, operand and width add up to at most the break
as natural numbers, so the `uint32_t` sum the validator checked has not
wrapped. -/
abbrev cell_inside (mem : Mem) (brk fld t : Nat) : Prop :=
  is_indirect t → loadN mem fld 4 + valsize t ≤ brk

/-- Every byte the cycle touches lies inside the buffer: the 16 bytes of the
instruction at `ip`, the cells of its three operands, and, for `@`, the two
ranges of the count that the executor uses.  On these states the loads and
stores of the source stay inside the block `machine.mem` points to. -/
abbrev inside (h : Host) (mv : Machine) (ip : Nat) : Prop :=
  ip + op_size ≤ mv.brk
  ∧ cell_inside mv.mem mv.brk (dst_fld ip) (op_dst_type mv.mem ip)
  ∧ cell_inside mv.mem mv.brk (src1_fld ip) (op_src1_type mv.mem ip)
  ∧ cell_inside mv.mem mv.brk (src2_fld ip) (op_src2_type mv.mem ip)
  ∧ (op_op mv.mem ip = oBlock →
      valaddr mv.mem (dst_fld ip) (op_dst_type mv.mem ip)
          + block_count h (advance mv.mem ip) ip ≤ mv.brk
      ∧ valaddr mv.mem (src1_fld ip) (op_src1_type mv.mem ip)
          + block_count h (advance mv.mem ip) ip ≤ mv.brk)

/-! # Theorems -/

/-! ## Growth of the buffer -/

/-- The four ways through `check_brk`. -/
theorem check_brk_cases (h : Host) (max addr : Nat) (m : Machine) :
    (addr ≤ m.brk ∧ check_brk h max addr m = (0, m)) ∨
    (m.brk < addr ∧ max < addr ∧ check_brk h max addr m = (-1, m)) ∨
    (m.brk < addr ∧ addr ≤ max ∧ h.alloc m.brk addr = none
      ∧ check_brk h max addr m = (-1, m)) ∨
    (m.brk < addr ∧ addr ≤ max ∧ ∃ fresh, h.alloc m.brk addr = some fresh
      ∧ check_brk h max addr m
        = (0, { mem := fun x => if m.brk ≤ x ∧ x < addr then fresh x else m.mem x,
                brk := addr })) := by
  unfold check_brk realloc
  by_cases h1 : addr > m.brk
  · by_cases h2 : addr > max
    · simp [h1, h2]
    · cases h3 : h.alloc m.brk addr with
      | none => simp [h1, h2, h3]; omega
      | some fresh => simp [h1, h2, h3]; omega
  · simp [h1]; omega

theorem Grows.refl (m : Machine) : Grows m m :=
  ⟨Nat.le_refl _, Or.inl (Nat.le_refl _), fun _ _ => rfl⟩

theorem Grows.trans {a b c : Machine} (h1 : Grows a b) (h2 : Grows b c) : Grows a c := by
  obtain ⟨h1a, h1b, h1c⟩ := h1
  obtain ⟨h2a, h2b, h2c⟩ := h2
  refine ⟨Nat.le_trans h1a h2a, ?_, ?_⟩
  · omega
  · intro x hx
    rw [h2c x (by omega), h1c x hx]

theorem check_brk_grows (h : Host) (addr : Nat) (m : Machine) :
    Grows m (check_brk h brk_max addr m).2 := by
  rcases check_brk_cases h brk_max addr m with ⟨_, e⟩ | ⟨_, _, e⟩ | ⟨_, _, _, e⟩
    | ⟨h1, h2, fresh, _, e⟩
  · rw [e]; exact Grows.refl m
  · rw [e]; exact Grows.refl m
  · rw [e]; exact Grows.refl m
  · rw [e]
    refine ⟨Nat.le_of_lt h1, Or.inr h2, ?_⟩
    intro x hx
    have : ¬ (m.brk ≤ x ∧ x < addr) := by omega
    simp [this]

theorem check_brk_ok (h : Host) (addr : Nat) (m : Machine)
    (h0 : (check_brk h brk_max addr m).1 = 0) : addr ≤ (check_brk h brk_max addr m).2.brk := by
  rcases check_brk_cases h brk_max addr m with ⟨h1, e⟩ | ⟨_, _, e⟩ | ⟨_, _, _, e⟩
    | ⟨_, _, fresh, _, e⟩
  · rw [e]; exact h1
  · rw [e] at h0; simp at h0
  · rw [e] at h0; simp at h0
  · rw [e]

theorem check_brk_fail (h : Host) (addr : Nat) (m : Machine)
    (h0 : (check_brk h brk_max addr m).1 ≠ 0) : (check_brk h brk_max addr m).2 = m := by
  rcases check_brk_cases h brk_max addr m with ⟨_, e⟩ | ⟨_, _, e⟩ | ⟨_, _, _, e⟩
    | ⟨_, _, fresh, _, e⟩
  · rw [e]
  · rw [e]
  · rw [e]
  · rw [e] at h0; simp at h0

theorem assert_brk_ok {h : Host} {addr : Nat} {m m' : Machine}
    (e : assert_brk h addr m = .ok m') : Grows m m' ∧ addr ≤ m'.brk := by
  unfold assert_brk at e
  split at e
  · cases e
  · rename_i h0
    simp only [ne_eq, not_not] at h0
    cases e
    exact ⟨check_brk_grows h addr m, check_brk_ok h addr m h0⟩

theorem assert_brk_error {h : Host} {addr : Nat} {m m' : Machine} {e : Error}
    (he : assert_brk h addr m = .error (e, m')) : e = Error.NoMemory ∧ m' = m := by
  unfold assert_brk at he
  split at he
  · rename_i h0
    cases he
    exact ⟨rfl, check_brk_fail h addr m h0⟩
  · cases he

theorem validate_arg_ok {h : Host} {addr t : Nat} {m m' : Machine}
    (e : validate_arg h addr t m = .ok m') : Grows m m' := by
  unfold validate_arg at e
  split_ifs at e
  · cases e; exact Grows.refl m
  · exact (assert_brk_ok e).1
  · exact (assert_brk_ok e).1
  · exact (assert_brk_ok e).1
  · exact (assert_brk_ok e).1

theorem validate_arg_error {h : Host} {addr t : Nat} {m m' : Machine} {e : Error}
    (he : validate_arg h addr t m = .error (e, m')) : m' = m := by
  unfold validate_arg at he
  split_ifs at he
  · exact (assert_brk_error he).2
  · exact (assert_brk_error he).2
  · exact (assert_brk_error he).2
  · exact (assert_brk_error he).2
  · cases he; rfl

theorem bind_ok {x : Checked} {f : Machine → Checked} {m' : Machine} :
    (x >>= f) = .ok m' ↔ ∃ m1, x = .ok m1 ∧ f m1 = .ok m' := by
  cases x with
  | error e => simp [bind, Except.bind]
  | ok a => simp [bind, Except.bind]

theorem bind_error {x : Checked} {f : Machine → Checked} {e : Error × Machine} :
    (x >>= f) = .error e ↔ x = .error e ∨ ∃ m1, x = .ok m1 ∧ f m1 = .error e := by
  cases x with
  | error e => simp [bind, Except.bind]
  | ok a => simp [bind, Except.bind]

theorem fetch_ok {h : Host} {ip : Nat} {m m' : Machine} (e : fetch h ip m = .ok m') :
    Grows m m' ∧ u32 (ip + op_size) ≤ m'.brk := by
  unfold fetch at e
  split at e
  · cases e
  · rename_i h0
    simp only [ne_eq, not_not] at h0
    cases e
    exact ⟨check_brk_grows h _ m, check_brk_ok h _ m h0⟩

theorem fetch_error {h : Host} {ip : Nat} {m m' : Machine} {e : Error}
    (he : fetch h ip m = .error (e, m')) : e = Error.InvalidIP ∧ m' = m := by
  unfold fetch at he
  split at he
  · rename_i h0
    cases he
    exact ⟨rfl, check_brk_fail h _ m h0⟩
  · cases he

theorem check_op_ok {ip : Nat} {m m' : Machine} (e : check_op ip m = .ok m') :
    m' = m ∧ validate_op (op_op m.mem ip) = true := by
  unfold check_op at e
  split at e
  · rename_i h0; cases e; exact ⟨rfl, h0⟩
  · cases e

theorem check_op_error {ip : Nat} {m m' : Machine} {e : Error}
    (he : check_op ip m = .error (e, m')) :
    e = Error.InvalidOp ∧ m' = m ∧ validate_op (op_op m.mem ip) = false := by
  unfold check_op at he
  split at he
  · cases he
  · rename_i h0; cases he; exact ⟨rfl, rfl, by simpa using h0⟩

theorem validate_args_ok {h : Host} {ip : Nat} {m m' : Machine}
    (e : validate_args h ip m = .ok m') : Grows m m' := by
  simp only [validate_args, bind_ok] at e
  obtain ⟨m2, e2, m3, e3, e⟩ := e
  exact ((validate_arg_ok e2).trans (validate_arg_ok e3)).trans (validate_arg_ok e)

theorem validate_args_error {h : Host} {ip : Nat} {m m' : Machine} {e : Error}
    (he : validate_args h ip m = .error (e, m')) : Grows m m' := by
  simp only [validate_args, bind_error] at he
  rcases he with he | ⟨m2, e2, he | ⟨m3, e3, he⟩⟩
  · rw [validate_arg_error he]; exact Grows.refl m
  · rw [validate_arg_error he]; exact validate_arg_ok e2
  · rw [validate_arg_error he]; exact (validate_arg_ok e2).trans (validate_arg_ok e3)

theorem validate_specific_ok {h : Host} {ip : Nat} {m m' : Machine}
    (e : validate_specific h ip m = .ok m') : Grows m m' := by
  unfold validate_specific at e
  split_ifs at e
  · simp only [bind_ok] at e
    obtain ⟨m5, e5, e⟩ := e
    exact (assert_brk_ok e5).1.trans (assert_brk_ok e).1
  · cases e; exact Grows.refl m
  · cases e; exact Grows.refl m

theorem validate_specific_error {h : Host} {ip : Nat} {m m' : Machine} {e : Error}
    (he : validate_specific h ip m = .error (e, m')) : Grows m m' := by
  unfold validate_specific at he
  split_ifs at he
  · simp only [bind_error] at he
    rcases he with he | ⟨m5, e5, he⟩
    · rw [(assert_brk_error he).2]; exact Grows.refl m
    · rw [(assert_brk_error he).2]; exact (assert_brk_ok e5).1
  · cases he; exact Grows.refl m

/-- A validation that passes has gone through each of its four stages. -/
theorem validate_ok {h : Host} {m mv : Machine} (e : validate h m = .ok mv) :
    ∃ m1 m4, fetch h (loadN m.mem 0 4) m = .ok m1
      ∧ validate_op (op_op m1.mem (loadN m.mem 0 4)) = true
      ∧ validate_args h (loadN m.mem 0 4) m1 = .ok m4
      ∧ validate_specific h (loadN m.mem 0 4) m4 = .ok mv := by
  simp only [validate, bind_ok] at e
  obtain ⟨m1, e1, m1', e2, m4, e3, e⟩ := e
  obtain ⟨rfl, hop⟩ := check_op_ok e2
  exact ⟨m1', m4, e1, hop, e3, e⟩

theorem validate_ok_grows {h : Host} {m mv : Machine} (e : validate h m = .ok mv) :
    Grows m mv ∧ u32 (loadN m.mem 0 4 + op_size) ≤ mv.brk := by
  obtain ⟨m1, m4, e1, _, e3, e4⟩ := validate_ok e
  have g1 := fetch_ok e1
  have g3 := validate_args_ok e3
  have g4 := validate_specific_ok e4
  exact ⟨(g1.1.trans g3).trans g4, by have := g3.1; have := g4.1; omega⟩

theorem validate_error_grows {h : Host} {m m' : Machine} {e : Error}
    (he : validate h m = .error (e, m')) : Grows m m' := by
  simp only [validate, bind_error] at he
  rcases he with he | ⟨m1, e1, he | ⟨m1', e2, he | ⟨m4, e3, he⟩⟩⟩
  · rw [(fetch_error he).2]; exact Grows.refl m
  · rw [(check_op_error he).2.1]; exact (fetch_ok e1).1
  · obtain ⟨rfl, _⟩ := check_op_ok e2
    exact (fetch_ok e1).1.trans (validate_args_error he)
  · obtain ⟨rfl, _⟩ := check_op_ok e2
    exact ((fetch_ok e1).1.trans (validate_args_ok e3)).trans (validate_specific_error he)

theorem finish_brk (brk : Nat) (mem : Mem) (r : Option Mem) :
    (finish brk mem r).machine.brk = brk := by
  cases r <;> rfl

/-- Case analysis on the dispatch switch: a property of the outcome holds
when it holds in each `case`, and in the fall-through of an opcode that has
no `case`. -/
theorem dispatch_cases {h : Host} {brk : Nat} {mem : Mem} {ip : Nat} {P : Outcome → Prop}
    (c0 : op_op mem ip = oNop →
      P (Outcome.running { mem := mem, brk := brk }))
    (c1 : op_op mem ip = oAssign →
      P (finish brk mem (some (unary_op h false oAssign mem ip))))
    (c2 : op_op mem ip = oBlock →
      P (finish brk mem (some (memmove mem (valaddr mem (dst_fld ip) (op_dst_type mem ip))
        (valaddr mem (src1_fld ip) (op_src1_type mem ip)) (block_count h mem ip)))))
    (c3 : op_op mem ip = oNot →
      P (finish brk mem (some (unary_op h true oNot mem ip))))
    (c4 : op_op mem ip = oAnd →
      P (finish brk mem (binary_op h true oAnd mem ip)))
    (c5 : op_op mem ip = oOr →
      P (finish brk mem (binary_op h true oOr mem ip)))
    (c6 : op_op mem ip = oXor →
      P (finish brk mem (binary_op h true oXor mem ip)))
    (c7 : op_op mem ip = oShl →
      P (finish brk mem (binary_op h true oShl mem ip)))
    (c8 : op_op mem ip = oShr →
      P (finish brk mem (binary_op h true oShr mem ip)))
    (c9 : op_op mem ip = oNeg →
      P (finish brk mem (some (unary_op h false oNeg mem ip))))
    (c10 : op_op mem ip = oAdd →
      P (finish brk mem (binary_op h false oAdd mem ip)))
    (c11 : op_op mem ip = oSub →
      P (finish brk mem (binary_op h false oSub mem ip)))
    (c12 : op_op mem ip = oMul →
      P (finish brk mem (binary_op h false oMul mem ip)))
    (c13 : op_op mem ip = oDiv →
      P (finish brk mem (binary_op h false oDiv mem ip)))
    (c14 : op_op mem ip = oRem →
      P (finish brk mem (rem_op h mem ip)))
    (c15 : op_op mem ip = oHalt →
      P (Outcome.halted { mem := mem, brk := brk }))
    (cnone : validate_op (op_op mem ip) = false →
      P (Outcome.running { mem := mem, brk := brk })) :
    P (dispatch h brk mem ip) := by
  unfold dispatch
  by_cases h0 : op_op mem ip = oNop
  · rw [if_pos h0]; exact c0 h0
  rw [if_neg h0]
  by_cases h1 : op_op mem ip = oAssign
  · rw [if_pos h1]; exact c1 h1
  rw [if_neg h1]
  by_cases h2 : op_op mem ip = oBlock
  · rw [if_pos h2]; exact c2 h2
  rw [if_neg h2]
  by_cases h3 : op_op mem ip = oNot
  · rw [if_pos h3]; exact c3 h3
  rw [if_neg h3]
  by_cases h4 : op_op mem ip = oAnd
  · rw [if_pos h4]; exact c4 h4
  rw [if_neg h4]
  by_cases h5 : op_op mem ip = oOr
  · rw [if_pos h5]; exact c5 h5
  rw [if_neg h5]
  by_cases h6 : op_op mem ip = oXor
  · rw [if_pos h6]; exact c6 h6
  rw [if_neg h6]
  by_cases h7 : op_op mem ip = oShl
  · rw [if_pos h7]; exact c7 h7
  rw [if_neg h7]
  by_cases h8 : op_op mem ip = oShr
  · rw [if_pos h8]; exact c8 h8
  rw [if_neg h8]
  by_cases h9 : op_op mem ip = oNeg
  · rw [if_pos h9]; exact c9 h9
  rw [if_neg h9]
  by_cases h10 : op_op mem ip = oAdd
  · rw [if_pos h10]; exact c10 h10
  rw [if_neg h10]
  by_cases h11 : op_op mem ip = oSub
  · rw [if_pos h11]; exact c11 h11
  rw [if_neg h11]
  by_cases h12 : op_op mem ip = oMul
  · rw [if_pos h12]; exact c12 h12
  rw [if_neg h12]
  by_cases h13 : op_op mem ip = oDiv
  · rw [if_pos h13]; exact c13 h13
  rw [if_neg h13]
  by_cases h14 : op_op mem ip = oRem
  · rw [if_pos h14]; exact c14 h14
  rw [if_neg h14]
  by_cases h15 : op_op mem ip = oHalt
  · rw [if_pos h15]; exact c15 h15
  rw [if_neg h15]
  apply cnone
  simp only [validate_op, Bool.or_eq_false_iff, decide_eq_false_iff_not]
  exact ⟨⟨⟨⟨⟨⟨⟨⟨⟨⟨⟨⟨⟨⟨⟨h0, h1⟩, h2⟩, h3⟩, h4⟩, h5⟩, h6⟩, h7⟩, h8⟩, h9⟩, h10⟩, h11⟩, h12⟩,
    h13⟩, h14⟩, h15⟩

theorem dispatch_brk (h : Host) (brk : Nat) (mem : Mem) (ip : Nat) :
    (dispatch h brk mem ip).machine.brk = brk := by
  apply dispatch_cases (P := fun o => o.machine.brk = brk) <;> intro _ <;>
    first | exact finish_brk _ _ _ | rfl

/-- The break at the end of a cycle is the break some growth of the buffer
has produced. -/
theorem cycle_grows_brk (h : Host) (m : Machine) :
    ∃ m', Grows m m' ∧ (cycle h m).machine.brk = m'.brk := by
  unfold cycle
  split
  · rename_i e m' he
    exact ⟨m', validate_error_grows he, rfl⟩
  · rename_i mv he
    exact ⟨mv, (validate_ok_grows he).1, dispatch_brk h _ _ _⟩

theorem Grows.brk_le {m m' : Machine} (g : Grows m m') (hm : m.brk ≤ brk_max) :
    m'.brk ≤ brk_max := by
  obtain ⟨_, g2, _⟩ := g
  omega

theorem cycle_brk_le (h : Host) (m : Machine) (hm : m.brk ≤ brk_max) :
    (cycle h m).machine.brk ≤ brk_max := by
  obtain ⟨m', g, e⟩ := cycle_grows_brk h m
  rw [e]
  exact g.brk_le hm

theorem run_brk_le (h : Host) (n : Nat) :
    ∀ m : Machine, m.brk ≤ brk_max → (run h n m).machine.brk ≤ brk_max := by
  induction n with
  | zero => intro m hm; exact hm
  | succ n ih =>
    intro m hm
    have hc := cycle_brk_le h m hm
    unfold run
    split
    · rename_i m' e
      rw [e] at hc
      exact ih m' hc
    · exact hc

/-! ## The contract of `check_brk` and the ceiling -/

/-- C5: `check_brk` (ensure), for every address, break, ceiling and memory:
when `addr ≤ brk` it returns 0 and changes nothing; otherwise when
`addr > max` it returns -1 and leaves the machine (break and every byte)
unchanged; otherwise, when the allocator succeeds, it returns 0, sets the
break to exactly `addr` and keeps every byte below the old break (and when the
allocator fails it returns -1 and leaves the machine unchanged). -/
theorem check_brk_contract (h : Host) (max addr : Nat) (m : Machine) :
    (addr ≤ m.brk → check_brk h max addr m = (0, m)) ∧
    (m.brk < addr → max < addr → check_brk h max addr m = (-1, m)) ∧
    (m.brk < addr → addr ≤ max → (h.alloc m.brk addr).isSome = true →
      (check_brk h max addr m).1 = 0 ∧ (check_brk h max addr m).2.brk = addr
        ∧ ∀ x, x < m.brk → (check_brk h max addr m).2.mem x = m.mem x) ∧
    (m.brk < addr → addr ≤ max → h.alloc m.brk addr = none →
      check_brk h max addr m = (-1, m)) := by
  rcases check_brk_cases h max addr m with ⟨h1, e⟩ | ⟨h1, h2, e⟩ | ⟨h1, h2, h3, e⟩
    | ⟨h1, h2, fresh, h3, e⟩
  · refine ⟨fun _ => e, ?_, ?_, ?_⟩ <;> intros <;> omega
  · refine ⟨?_, fun _ _ => e, ?_, ?_⟩ <;> intros <;> omega
  · refine ⟨?_, ?_, ?_, fun _ _ _ => e⟩
    · intros; omega
    · intros; omega
    · intro _ _ hs
      rw [h3] at hs
      cases hs
  · refine ⟨?_, ?_, ?_, ?_⟩
    · intros; omega
    · intros; omega
    · intro _ _ _
      rw [e]
      refine ⟨rfl, rfl, ?_⟩
      intro x hx
      have : ¬ (m.brk ≤ x ∧ x < addr) := by omega
      simp [this]
    · intro _ _ hn
      rw [h3] at hn
      cases hn

/-- Growth from 32 to 48 bytes: the call returns 0, the break is exactly 48 and
the 32 old bytes are kept. -/
theorem check_brk_contract_witness :
    (check_brk host0 brk_max 48 (boot 32 [])).1 = 0
      ∧ (check_brk host0 brk_max 48 (boot 32 [])).2.brk = 48
      ∧ ∀ x, x < (boot 32 []).brk →
          (check_brk host0 brk_max 48 (boot 32 [])).2.mem x = (boot 32 []).mem x :=
  (check_brk_contract host0 brk_max 48 (boot 32 [])).2.2.1 (by decide) (by decide) rfl

/-- C6: `brk ≤ brk_max` is an invariant: it holds for the initial machine
(break 0, ceiling 4 MiB), every call of `check_brk` and `assert_brk` preserves
it, and so does every cycle of `run`, whether it goes on, halts, exits through
`fatal` or traps, and hence every run. -/
theorem brk_le_max_invariant :
    (machine0.brk = 0 ∧ brk_max = 4194304 ∧ machine0.brk ≤ brk_max) ∧
    (∀ (h : Host) (addr : Nat) (m : Machine), m.brk ≤ brk_max →
      (check_brk h brk_max addr m).2.brk ≤ brk_max) ∧
    (∀ (h : Host) (addr : Nat) (m m' : Machine), m.brk ≤ brk_max →
      assert_brk h addr m = .ok m' → m'.brk ≤ brk_max) ∧
    (∀ (h : Host) (addr : Nat) (m m' : Machine) (e : Error), m.brk ≤ brk_max →
      assert_brk h addr m = .error (e, m') → m'.brk ≤ brk_max) ∧
    (∀ (h : Host) (m : Machine), m.brk ≤ brk_max → (cycle h m).machine.brk ≤ brk_max) ∧
    (∀ (h : Host) (n : Nat) (m : Machine), m.brk ≤ brk_max →
      (run h n m).machine.brk ≤ brk_max) := by
  refine ⟨⟨rfl, rfl, by decide⟩, ?_, ?_, ?_, cycle_brk_le, run_brk_le⟩
  · intro h addr m hm
    exact (check_brk_grows h addr m).brk_le hm
  · intro h addr m m' hm e
    exact (assert_brk_ok e).1.brk_le hm
  · intro h addr m m' e hm he
    rw [(assert_brk_error he).2]
    exact hm

/-- A cycle that grows the buffer from 20 bytes to the 32 its instruction
needs stays within the ceiling. -/
theorem brk_le_max_invariant_witness :
    (cycle host0 (boot 20 (instr oNop tU tU tU 0 0 0))).machine.brk ≤ brk_max :=
  brk_le_max_invariant.2.2.2.2.1 host0 (boot 20 (instr oNop tU tU tU 0 0 0)) (by decide)

/-! ## Memory cells -/

theorem loadN_congr {mem mem' : Mem} (w : Nat) :
    ∀ a, (∀ x, a ≤ x → x < a + w → mem x = mem' x) → loadN mem a w = loadN mem' a w := by
  induction w with
  | zero => intro a _; rfl
  | succ w ih =>
    intro a hx
    simp only [loadN]
    rw [hx a (Nat.le_refl _) (by omega), ih (a + 1) (fun x h1 h2 => hx x (by omega) (by omega))]

theorem storeN_in (mem : Mem) {a w x : Nat} (v : Nat) (h1 : a ≤ x) (h2 : x < a + w) :
    storeN mem a w v x = byteOf (v / 256 ^ (x - a)) := by
  simp [storeN, h1, h2]

theorem storeN_out (mem : Mem) {a w x : Nat} (v : Nat) (hx : ¬ (a ≤ x ∧ x < a + w)) :
    storeN mem a w v x = mem x := by
  simp [storeN, hx]

theorem loadN_storeN (mem : Mem) (w : Nat) :
    ∀ a v, loadN (storeN mem a w v) a w = v % 256 ^ w := by
  induction w with
  | zero => intro a v; simp [loadN, Nat.mod_one]
  | succ w ih =>
    intro a v
    have e1 : loadN (storeN mem a (w + 1) v) (a + 1) w
        = loadN (storeN mem (a + 1) w (v / 256)) (a + 1) w := by
      apply loadN_congr
      intro x h1 h2
      rw [storeN_in mem v (by omega) (by omega), storeN_in mem (v / 256) h1 h2]
      have e : x - a = (x - (a + 1)) + 1 := by omega
      rw [e, pow_succ, Nat.mul_comm, Nat.div_div_eq_div_mul]
    simp only [loadN]
    rw [e1, ih, storeN_in mem v (Nat.le_refl _) (by omega)]
    simp only [byteOf, Nat.sub_self, pow_zero, Nat.div_one]
    rw [pow_succ, Nat.mul_comm (256 ^ w) 256, Nat.mod_mul]

theorem loadN_storeN_disjoint (mem : Mem) {a w b k : Nat} (v : Nat)
    (hd : b + k ≤ a ∨ a + w ≤ b) : loadN (storeN mem a w v) b k = loadN mem b k := by
  apply loadN_congr
  intro x h1 h2
  exact storeN_out mem v (by omega)

theorem memmove_in (mem : Mem) {dst n x : Nat} (src : Nat) (h1 : dst ≤ x) (h2 : x < dst + n) :
    memmove mem dst src n x = mem (src + (x - dst)) := by
  simp [memmove, h1, h2]

theorem memmove_out (mem : Mem) {dst n x : Nat} (src : Nat) (hx : ¬ (dst ≤ x ∧ x < dst + n)) :
    memmove mem dst src n x = mem x := by
  simp [memmove, hx]

/-! ## The instruction during validation and after the advance -/

/-- Once the fetch check has passed, later growth does not touch the 16 bytes
of the instruction. -/
theorem instr_stable {m1 m4 : Machine} {ip : Nat} (g : Grows m1 m4)
    (hf : u32 (ip + op_size) ≤ m1.brk) :
    ∀ x, ip ≤ x → x < ip + 16 → m4.mem x = m1.mem x := by
  intro x h1 h2
  apply g.2.2
  unfold u32 op_size at hf
  unfold brk_max
  omega

theorem fetch_eq_fetched {h : Host} {m m1 : Machine}
    (e : fetch h (loadN m.mem 0 4) m = .ok m1) : m1 = fetched h m := by
  unfold fetch at e
  split at e
  · cases e
  · cases e; rfl

theorem is_bitwise_not_block {op : Nat} (hop : is_bitwise op) : op ≠ oBlock := by
  rcases hop with e | e | e | e | e | e <;> subst e <;> decide

theorem validate_after_fetch {h : Host} {m m1 : Machine}
    (hf : fetch h (loadN m.mem 0 4) m = .ok m1) :
    (∀ mv, validate h m = .ok mv → Grows m1 mv) ∧
    (∀ e m', validate h m = .error (e, m') → Grows m1 m') := by
  constructor
  · intro mv hv
    obtain ⟨m1', m4, e1, _, e3, e4⟩ := validate_ok hv
    rw [hf] at e1
    cases e1
    exact (validate_args_ok e3).trans (validate_specific_ok e4)
  · intro e m' he
    simp only [validate, bind_error] at he
    rcases he with he | ⟨m1', e1, he | ⟨m1'', e2, he | ⟨m4, e3, he⟩⟩⟩
    · rw [hf] at he; cases he
    · rw [hf] at e1; cases e1
      rw [(check_op_error he).2.1]; exact Grows.refl _
    · rw [hf] at e1; cases e1
      obtain ⟨rfl, _⟩ := check_op_ok e2
      exact validate_args_error he
    · rw [hf] at e1; cases e1
      obtain ⟨rfl, _⟩ := check_op_ok e2
      exact (validate_args_ok e3).trans (validate_specific_error he)

theorem cycle_brk_after_fetch {h : Host} {m m1 : Machine}
    (hf : fetch h (loadN m.mem 0 4) m = .ok m1) : m1.brk ≤ (cycle h m).machine.brk := by
  have hv := validate_after_fetch hf
  unfold cycle
  split
  · rename_i e m' he
    exact (hv.2 e m' he).1
  · rename_i mv he
    show m1.brk ≤ (dispatch h mv.brk _ _).machine.brk
    rw [dispatch_brk]
    exact (hv.1 mv he).1

/-- C7, as amended: in every cycle whose fetch check succeeds, the
instruction pointer `ip` read from cell 0 at the start of that cycle
satisfies `ip + 16 ≤ brk`, the sum taken as `uint32_t` (so `ip + 16 ≤ brk`
itself whenever `ip + 16 < 2 ^ 32`), from the check to the end of the
cycle. -/
theorem fetched_ip_addressable (h : Host) (m m1 : Machine)
    (hf : fetch h (loadN m.mem 0 4) m = .ok m1) :
    u32 (loadN m.mem 0 4 + op_size) ≤ m1.brk
      ∧ (loadN m.mem 0 4 + op_size < 2 ^ 32 → loadN m.mem 0 4 + op_size ≤ m1.brk)
      ∧ u32 (loadN m.mem 0 4 + op_size) ≤ (cycle h m).machine.brk
      ∧ (loadN m.mem 0 4 + op_size < 2 ^ 32 →
          loadN m.mem 0 4 + op_size ≤ (cycle h m).machine.brk) := by
  have h1 := (fetch_ok hf).2
  have h2 := cycle_brk_after_fetch hf
  have h3 : loadN m.mem 0 4 + op_size < 2 ^ 32 →
      u32 (loadN m.mem 0 4 + op_size) = loadN m.mem 0 4 + op_size := by
    intro hlt; exact Nat.mod_eq_of_lt hlt
  refine ⟨h1, ?_, Nat.le_trans h1 h2, ?_⟩
  · intro hlt; rw [← h3 hlt]; exact h1
  · intro hlt; rw [← h3 hlt]; exact Nat.le_trans h1 h2

/-- A 20-byte machine with `ip = 16`: the fetch check grows the buffer to 32
bytes, and `16 + 16 ≤ brk` holds to the end of the cycle. -/
theorem fetched_ip_addressable_witness :
    u32 (loadN (boot 20 (instr oNop tU tU tU 0 0 0)).mem 0 4 + op_size)
        ≤ (fetched host0 (boot 20 (instr oNop tU tU tU 0 0 0))).brk
      ∧ (loadN (boot 20 (instr oNop tU tU tU 0 0 0)).mem 0 4 + op_size < 2 ^ 32 →
          loadN (boot 20 (instr oNop tU tU tU 0 0 0)).mem 0 4 + op_size
            ≤ (fetched host0 (boot 20 (instr oNop tU tU tU 0 0 0))).brk)
      ∧ u32 (loadN (boot 20 (instr oNop tU tU tU 0 0 0)).mem 0 4 + op_size)
          ≤ (cycle host0 (boot 20 (instr oNop tU tU tU 0 0 0))).machine.brk
      ∧ (loadN (boot 20 (instr oNop tU tU tU 0 0 0)).mem 0 4 + op_size < 2 ^ 32 →
          loadN (boot 20 (instr oNop tU tU tU 0 0 0)).mem 0 4 + op_size
            ≤ (cycle host0 (boot 20 (instr oNop tU tU tU 0 0 0))).machine.brk) :=
  fetched_ip_addressable host0 (boot 20 (instr oNop tU tU tU 0 0 0))
    (fetched host0 (boot 20 (instr oNop tU tU tU 0 0 0))) rfl

/-- C7 fails as stated: a 4096-byte machine with `ip = 4080` and a no-op
there completes its cycle, and at the cycle boundary cell 0 holds 4096 while
the break is still 4096, so `ip + 16 ≤ brk` does not hold. -/
theorem ip_addressable_counterexample :
    cycle host0 (boot_at 4096 4080 (instr oNop tU tU tU 0 0 0))
        = .running (cycle host0 (boot_at 4096 4080 (instr oNop tU tU tU 0 0 0))).machine
      ∧ loadN (cycle host0 (boot_at 4096 4080 (instr oNop tU tU tU 0 0 0))).machine.mem 0 4
          = 4096
      ∧ (cycle host0 (boot_at 4096 4080 (instr oNop tU tU tU 0 0 0))).machine.brk = 4096
      ∧ ¬ (loadN (cycle host0 (boot_at 4096 4080 (instr oNop tU tU tU 0 0 0))).machine.mem 0 4
            + op_size
          ≤ (cycle host0 (boot_at 4096 4080 (instr oNop tU tU tU 0 0 0))).machine.brk) :=
  ⟨rfl, by decide, by decide, by decide⟩

/-! ## The dispatch switch at a known opcode -/

theorem dispatch_oNop {h : Host} {brk : Nat} {mem : Mem} {ip : Nat}
    (hop : op_op mem ip = oNop) :
    dispatch h brk mem ip
      = Outcome.running { mem := mem, brk := brk } := by
  apply dispatch_cases (P := fun o => o = _) <;> intro hx <;>
    first
    | (rw [hop] at hx; exact absurd hx (by decide))
    | rfl

theorem dispatch_oAssign {h : Host} {brk : Nat} {mem : Mem} {ip : Nat}
    (hop : op_op mem ip = oAssign) :
    dispatch h brk mem ip
      = finish brk mem (some (unary_op h false oAssign mem ip)) := by
  apply dispatch_cases (P := fun o => o = _) <;> intro hx <;>
    first
    | (rw [hop] at hx; exact absurd hx (by decide))
    | rfl

theorem dispatch_oBlock {h : Host} {brk : Nat} {mem : Mem} {ip : Nat}
    (hop : op_op mem ip = oBlock) :
    dispatch h brk mem ip
      = finish brk mem (some (memmove mem (valaddr mem (dst_fld ip) (op_dst_type mem ip))
        (valaddr mem (src1_fld ip) (op_src1_type mem ip)) (block_count h mem ip))) := by
  apply dispatch_cases (P := fun o => o = _) <;> intro hx <;>
    first
    | (rw [hop] at hx; exact absurd hx (by decide))
    | rfl

theorem dispatch_oNot {h : Host} {brk : Nat} {mem : Mem} {ip : Nat}
    (hop : op_op mem ip = oNot) :
    dispatch h brk mem ip
      = finish brk mem (some (unary_op h true oNot mem ip)) := by
  apply dispatch_cases (P := fun o => o = _) <;> intro hx <;>
    first
    | (rw [hop] at hx; exact absurd hx (by decide))
    | rfl

theorem dispatch_oAnd {h : Host} {brk : Nat} {mem : Mem} {ip : Nat}
    (hop : op_op mem ip = oAnd) :
    dispatch h brk mem ip
      = finish brk mem (binary_op h true oAnd mem ip) := by
  apply dispatch_cases (P := fun o => o = _) <;> intro hx <;>
    first
    | (rw [hop] at hx; exact absurd hx (by decide))
    | rfl

theorem dispatch_oOr {h : Host} {brk : Nat} {mem : Mem} {ip : Nat}
    (hop : op_op mem ip = oOr) :
    dispatch h brk mem ip
      = finish brk mem (binary_op h true oOr mem ip) := by
  apply dispatch_cases (P := fun o => o = _) <;> intro hx <;>
    first
    | (rw [hop] at hx; exact absurd hx (by decide))
    | rfl

theorem dispatch_oXor {h : Host} {brk : Nat} {mem : Mem} {ip : Nat}
    (hop : op_op mem ip = oXor) :
    dispatch h brk mem ip
      = finish brk mem (binary_op h true oXor mem ip) := by
  apply dispatch_cases (P := fun o => o = _) <;> intro hx <;>
    first
    | (rw [hop] at hx; exact absurd hx (by decide))
    | rfl

theorem dispatch_oShl {h : Host} {brk : Nat} {mem : Mem} {ip : Nat}
    (hop : op_op mem ip = oShl) :
    dispatch h brk mem ip
      = finish brk mem (binary_op h true oShl mem ip) := by
  apply dispatch_cases (P := fun o => o = _) <;> intro hx <;>
    first
    | (rw [hop] at hx; exact absurd hx (by decide))
    | rfl

theorem dispatch_oShr {h : Host} {brk : Nat} {mem : Mem} {ip : Nat}
    (hop : op_op mem ip = oShr) :
    dispatch h brk mem ip
      = finish brk mem (binary_op h true oShr mem ip) := by
  apply dispatch_cases (P := fun o => o = _) <;> intro hx <;>
    first
    | (rw [hop] at hx; exact absurd hx (by decide))
    | rfl

theorem dispatch_oNeg {h : Host} {brk : Nat} {mem : Mem} {ip : Nat}
    (hop : op_op mem ip = oNeg) :
    dispatch h brk mem ip
      = finish brk mem (some (unary_op h false oNeg mem ip)) := by
  apply dispatch_cases (P := fun o => o = _) <;> intro hx <;>
    first
    | (rw [hop] at hx; exact absurd hx (by decide))
    | rfl

theorem dispatch_oAdd {h : Host} {brk : Nat} {mem : Mem} {ip : Nat}
    (hop : op_op mem ip = oAdd) :
    dispatch h brk mem ip
      = finish brk mem (binary_op h false oAdd mem ip) := by
  apply dispatch_cases (P := fun o => o = _) <;> intro hx <;>
    first
    | (rw [hop] at hx; exact absurd hx (by decide))
    | rfl

theorem dispatch_oSub {h : Host} {brk : Nat} {mem : Mem} {ip : Nat}
    (hop : op_op mem ip = oSub) :
    dispatch h brk mem ip
      = finish brk mem (binary_op h false oSub mem ip) := by
  apply dispatch_cases (P := fun o => o = _) <;> intro hx <;>
    first
    | (rw [hop] at hx; exact absurd hx (by decide))
    | rfl

theorem dispatch_oMul {h : Host} {brk : Nat} {mem : Mem} {ip : Nat}
    (hop : op_op mem ip = oMul) :
    dispatch h brk mem ip
      = finish brk mem (binary_op h false oMul mem ip) := by
  apply dispatch_cases (P := fun o => o = _) <;> intro hx <;>
    first
    | (rw [hop] at hx; exact absurd hx (by decide))
    | rfl

theorem dispatch_oDiv {h : Host} {brk : Nat} {mem : Mem} {ip : Nat}
    (hop : op_op mem ip = oDiv) :
    dispatch h brk mem ip
      = finish brk mem (binary_op h false oDiv mem ip) := by
  apply dispatch_cases (P := fun o => o = _) <;> intro hx <;>
    first
    | (rw [hop] at hx; exact absurd hx (by decide))
    | rfl

theorem dispatch_oRem {h : Host} {brk : Nat} {mem : Mem} {ip : Nat}
    (hop : op_op mem ip = oRem) :
    dispatch h brk mem ip
      = finish brk mem (rem_op h mem ip) := by
  apply dispatch_cases (P := fun o => o = _) <;> intro hx <;>
    first
    | (rw [hop] at hx; exact absurd hx (by decide))
    | rfl

theorem dispatch_oHalt {h : Host} {brk : Nat} {mem : Mem} {ip : Nat}
    (hop : op_op mem ip = oHalt) :
    dispatch h brk mem ip
      = Outcome.halted { mem := mem, brk := brk } := by
  apply dispatch_cases (P := fun o => o = _) <;> intro hx <;>
    first
    | (rw [hop] at hx; exact absurd hx (by decide))
    | rfl

/-! ## The advance of the instruction pointer -/

theorem advance_out (mem : Mem) (ip : Nat) {x : Nat} (hx : 4 ≤ x) :
    advance mem ip x = mem x := by
  unfold advance
  exact storeN_out mem _ (by omega)

theorem loadN_advance (mem : Mem) (ip : Nat) :
    loadN (advance mem ip) 0 4 = u32 (ip + op_size) := by
  unfold advance
  rw [loadN_storeN]
  unfold u32
  norm_num

theorem loadN_advance_out (mem : Mem) (ip : Nat) {a : Nat} (w : Nat) (ha : 4 ≤ a) :
    loadN (advance mem ip) a w = loadN mem a w := by
  apply loadN_congr
  intro x h1 _
  exact advance_out mem ip (by omega)

/-- The opcode byte of a validated instruction is not a byte of cell 0: an
instruction pointer below 4 points at one of its own zero bytes. -/
theorem ip_ge_four {m mv : Machine} (hcell : 4 ≤ m.brk) (g : Grows m mv)
    (hop : op_op mv.mem (loadN m.mem 0 4) ≠ 0) : 4 ≤ loadN m.mem 0 4 := by
  by_contra hlt
  have e : mv.mem (loadN m.mem 0 4) = m.mem (loadN m.mem 0 4) :=
    g.2.2 _ (Or.inl (by omega))
  unfold op_op at hop
  rw [e] at hop
  have hd : loadN m.mem 0 4
      = (m.mem 0).val + 256 * ((m.mem 1).val + 256 * ((m.mem 2).val + 256 * (m.mem 3).val)) := by
    simp [loadN]
  generalize loadN m.mem 0 4 = ip at hop hlt hd
  have hc : ip = 0 ∨ ip = 1 ∨ ip = 2 ∨ ip = 3 := by omega
  rcases hc with rfl | rfl | rfl | rfl <;> omega

/-! ## The write frame of the operators -/

theorem finish_frame {brk : Nat} {mem : Mem} {r : Option Mem} {x : Nat}
    (hr : ∀ mem2, r = some mem2 → mem2 x = mem x) :
    (finish brk mem r).machine.mem x = mem x := by
  cases r with
  | none => rfl
  | some mem2 => exact hr mem2 rfl

theorem dst_ctype_nofloat_eq {t : Nat} (h1 : t ≠ tF) (h2 : t ≠ tf) (h3 : t ≠ td) :
    dst_ctype_nofloat t = dst_ctype t := by
  unfold dst_ctype_nofloat dst_ctype
  simp only [if_neg h1, if_neg h2, if_neg h3]

theorem unary_op_frame (h : Host) ( nofloat : Bool) (cop : Nat) (mem : Mem) (ip x : Nat)
    (hx : ∀ c, (if nofloat then dst_ctype_nofloat (op_dst_type mem ip)
                else dst_ctype (op_dst_type mem ip)) = some c →
      ¬ (dst_addr mem ip (op_dst_type mem ip) ≤ x
          ∧ x < dst_addr mem ip (op_dst_type mem ip) + c.size)) :
    unary_op h nofloat cop mem ip x = mem x := by
  unfold unary_op
  generalize (if nofloat = true then dst_ctype_nofloat (op_dst_type mem ip)
    else dst_ctype (op_dst_type mem ip)) = sel at hx
  cases sel with
  | none => rfl
  | some c => exact storeN_out mem _ (hx c rfl)

theorem binary_op_frame (h : Host) ( nofloat : Bool) (cop : Nat) (mem mem2 : Mem) (ip x : Nat)
    (hx : ∀ c, (if nofloat then dst_ctype_nofloat (op_dst_type mem ip)
                else dst_ctype (op_dst_type mem ip)) = some c →
      ¬ (dst_addr mem ip (op_dst_type mem ip) ≤ x
          ∧ x < dst_addr mem ip (op_dst_type mem ip) + c.size))
    (e : binary_op h nofloat cop mem ip = some mem2) : mem2 x = mem x := by
  unfold binary_op at e
  generalize (if nofloat = true then dst_ctype_nofloat (op_dst_type mem ip)
    else dst_ctype (op_dst_type mem ip)) = sel at hx e
  cases sel with
  | none => cases e; rfl
  | some c =>
    simp only at e
    split at e
    · cases e
    · cases e
      exact storeN_out mem _ (hx c rfl)

theorem rem_op_frame (h : Host) (mem mem2 : Mem) (ip x : Nat)
    (hx : ∀ c, dst_ctype (op_dst_type mem ip) = some c →
      ¬ (dst_addr mem ip (op_dst_type mem ip) ≤ x
          ∧ x < dst_addr mem ip (op_dst_type mem ip) + c.size))
    (e : rem_op h mem ip = some mem2) : mem2 x = mem x := by
  unfold rem_op at e
  split_ifs at e with h1 h2 h3
  · cases e
    have := hx .f32 (by rw [h1]; rfl)
    rw [h1] at this
    exact storeN_out mem _ this
  · cases e
    have := hx .f32 (by rw [h2]; rfl)
    rw [h2] at this
    exact storeN_out mem _ this
  · cases e
    have := hx .f64 (by rw [h3]; rfl)
    rw [h3] at this
    exact storeN_out mem _ this
  · apply binary_op_frame h true oRem mem mem2 ip x _ e
    intro c hc
    apply hx c
    rw [← dst_ctype_nofloat_eq h1 h2 h3]
    exact hc

theorem write_range_block {h : Host} {mem : Mem} {ip : Nat} (hop : op_op mem ip = oBlock) :
    write_range h mem ip
      = (valaddr mem (dst_fld ip) (op_dst_type mem ip), block_count h mem ip) := by
  unfold write_range
  rw [if_pos hop]

theorem write_range_value {h : Host} {mem : Mem} {ip : Nat}
    (hop : op_op mem ip = oAssign ∨ op_op mem ip = oNeg ∨ op_op mem ip = oAdd
      ∨ op_op mem ip = oSub ∨ op_op mem ip = oMul ∨ op_op mem ip = oDiv
      ∨ op_op mem ip = oRem) :
    write_range h mem ip
      = match dst_ctype (op_dst_type mem ip) with
        | none => (0, 0)
        | some c => (dst_addr mem ip (op_dst_type mem ip), c.size) := by
  have hb : op_op mem ip ≠ oBlock := by
    rcases hop with e | e | e | e | e | e | e <;> rw [e] <;> decide
  unfold write_range
  rw [if_neg hb, if_pos hop]

theorem write_range_bitwise {h : Host} {mem : Mem} {ip : Nat}
    (hop : is_bitwise (op_op mem ip)) :
    write_range h mem ip
      = match dst_ctype_nofloat (op_dst_type mem ip) with
        | none => (0, 0)
        | some c => (dst_addr mem ip (op_dst_type mem ip), c.size) := by
  have hb : op_op mem ip ≠ oBlock := is_bitwise_not_block hop
  have hv : ¬ (op_op mem ip = oAssign ∨ op_op mem ip = oNeg ∨ op_op mem ip = oAdd
      ∨ op_op mem ip = oSub ∨ op_op mem ip = oMul ∨ op_op mem ip = oDiv
      ∨ op_op mem ip = oRem) := by
    rcases hop with e | e | e | e | e | e <;> rw [e] <;> decide
  have hop' := hop
  unfold is_bitwise at hop'
  unfold write_range
  rw [if_neg hb, if_neg hv, if_pos hop']

/-- The dispatch switch changes no byte outside the write range of the
operator. -/
theorem dispatch_frame (h : Host) (brk : Nat) (mem : Mem) (ip x : Nat)
    (hx : ¬ ((write_range h mem ip).1 ≤ x
      ∧ x < (write_range h mem ip).1 + (write_range h mem ip).2)) :
    (dispatch h brk mem ip).machine.mem x = mem x := by
  have hval : ∀ c, (op_op mem ip = oAssign ∨ op_op mem ip = oNeg ∨ op_op mem ip = oAdd
      ∨ op_op mem ip = oSub ∨ op_op mem ip = oMul ∨ op_op mem ip = oDiv
      ∨ op_op mem ip = oRem) → dst_ctype (op_dst_type mem ip) = some c →
      ¬ (dst_addr mem ip (op_dst_type mem ip) ≤ x
          ∧ x < dst_addr mem ip (op_dst_type mem ip) + c.size) := by
    intro c hop hc
    rw [write_range_value hop, hc] at hx
    exact hx
  have hbit : ∀ c, is_bitwise (op_op mem ip) →
      dst_ctype_nofloat (op_dst_type mem ip) = some c →
      ¬ (dst_addr mem ip (op_dst_type mem ip) ≤ x
          ∧ x < dst_addr mem ip (op_dst_type mem ip) + c.size) := by
    intro c hop hc
    rw [write_range_bitwise hop, hc] at hx
    exact hx
  apply dispatch_cases (P := fun o => o.machine.mem x = mem x)
  · intro _; rfl
  · intro hop
    exact unary_op_frame h false oAssign mem ip x
      (fun c hc => hval c (by simp [hop]) (by simpa using hc))
  · intro hop
    rw [write_range_block hop] at hx
    exact memmove_out mem _ hx
  · intro hop
    exact unary_op_frame h true oNot mem ip x
      (fun c hc => hbit c (by rw [hop]; decide) (by simpa using hc))
  · intro hop
    exact finish_frame fun mem2 e =>
      binary_op_frame h true oAnd mem mem2 ip x
      (fun c hc => hbit c (by rw [hop]; decide) (by simpa using hc)) e
  · intro hop
    exact finish_frame fun mem2 e =>
      binary_op_frame h true oOr mem mem2 ip x
      (fun c hc => hbit c (by rw [hop]; decide) (by simpa using hc)) e
  · intro hop
    exact finish_frame fun mem2 e =>
      binary_op_frame h true oXor mem mem2 ip x
      (fun c hc => hbit c (by rw [hop]; decide) (by simpa using hc)) e
  · intro hop
    exact finish_frame fun mem2 e =>
      binary_op_frame h true oShl mem mem2 ip x
      (fun c hc => hbit c (by rw [hop]; decide) (by simpa using hc)) e
  · intro hop
    exact finish_frame fun mem2 e =>
      binary_op_frame h true oShr mem mem2 ip x
      (fun c hc => hbit c (by rw [hop]; decide) (by simpa using hc)) e
  · intro hop
    exact unary_op_frame h false oNeg mem ip x
      (fun c hc => hval c (by simp [hop]) (by simpa using hc))
  · intro hop
    exact finish_frame fun mem2 e =>
      binary_op_frame h false oAdd mem mem2 ip x
      (fun c hc => hval c (by simp [hop]) (by simpa using hc)) e
  · intro hop
    exact finish_frame fun mem2 e =>
      binary_op_frame h false oSub mem mem2 ip x
      (fun c hc => hval c (by simp [hop]) (by simpa using hc)) e
  · intro hop
    exact finish_frame fun mem2 e =>
      binary_op_frame h false oMul mem mem2 ip x
      (fun c hc => hval c (by simp [hop]) (by simpa using hc)) e
  · intro hop
    exact finish_frame fun mem2 e =>
      binary_op_frame h false oDiv mem mem2 ip x
      (fun c hc => hval c (by simp [hop]) (by simpa using hc)) e
  · intro hop
    exact finish_frame fun mem2 e =>
      rem_op_frame h mem mem2 ip x (fun c hc => hval c (by simp [hop]) hc) e
  · intro _; rfl
  · intro _; rfl

/-! ## Integer types -/

theorem CType.enc_cast (c : CType) (v : Int) : ((c.enc v : Nat) : Int) = v % 2 ^ c.bits := by
  unfold CType.enc
  exact Int.toNat_of_nonneg (Int.emod_nonneg _ (by positivity))

theorem CType.enc_lt (c : CType) (v : Int) : c.enc v < 2 ^ c.bits := by
  have h1 := c.enc_cast v
  have h2 : v % 2 ^ c.bits < 2 ^ c.bits := Int.emod_lt_of_pos _ (by positivity)
  have h3 : ((c.enc v : Nat) : Int) < ((2 ^ c.bits : Nat) : Int) := by
    rw [h1]; push_cast; exact h2
  exact_mod_cast h3

theorem CType.enc_congr (c : CType) {a b : Int} (hab : a ≡ b [ZMOD 2 ^ c.bits]) :
    c.enc a = c.enc b := by
  unfold CType.enc
  rw [hab]

theorem CType.dec_modEq (c : CType) (b : Nat) : c.dec b ≡ (b : Int) [ZMOD 2 ^ c.bits] := by
  unfold CType.dec
  split
  · unfold Int.ModEq
    exact Int.emod_sub_cancel _ _
  · rfl

theorem CType.dec_enc_modEq (c : CType) (v : Int) : c.dec (c.enc v) ≡ v [ZMOD 2 ^ c.bits] := by
  have h1 := c.dec_modEq (c.enc v)
  rw [c.enc_cast] at h1
  exact h1.trans (Int.mod_modEq _ _)

theorem CType.pow_size (c : CType) : 256 ^ c.size = 2 ^ c.bits := by
  cases c <;> rfl

/-- The bytes a store of a bit pattern of type `c` leaves in its cell. -/
theorem loadN_storeN_enc (mem : Mem) (a : Nat) (c : CType) (z : Int) :
    loadN (storeN mem a c.size (c.enc z)) a c.size = c.enc z := by
  rw [loadN_storeN, c.pow_size]
  exact Nat.mod_eq_of_lt (c.enc_lt z)

/-! ## Operands -/

theorem dst_addr_eq_valaddr (mem : Mem) (ip t : Nat) :
    dst_addr mem ip t = valaddr mem (dst_fld ip) t := by
  unfold dst_addr valaddr
  by_cases h1 : t = tU
  · simp [h1]
  · by_cases h2 : t = tI
    · simp [h2]
    · by_cases h3 : t = tF
      · simp [h3]
      · simp [h1, h2, h3]

theorem readval_int (mem : Mem) (fld : Nat) {t : Nat} (ht : is_int_tag t) :
    readval mem fld t = .int (typed_value mem fld t) := by
  rcases ht with e | e | e | e | e | e | e | e | e | e <;> subst e <;>
    simp [readval, typed_value, valaddr, valsize, CType.dec, CType.signed, CType.bits,
      is_signed_tag, tU, tI, tF, tz, tl, td, tu, ti, tf, th, ts, tc, tb]

theorem val_int (h : Host) (mem : Mem) (fld : Nat) {t : Nat} (ht : is_int_tag t)
    {c : CType} (hc : c.isFloat = false) :
    val h mem fld t c = c.enc (typed_value mem fld t) := by
  unfold val
  rw [readval_int mem fld ht]
  simp [cast, hc]

/-! ## A validated instruction in the executor -/

theorem cycle_validated {h : Host} {m mv : Machine} (hv : validate h m = .ok mv) :
    cycle h m = dispatch h mv.brk (advance mv.mem (loadN m.mem 0 4)) (loadN m.mem 0 4) := by
  unfold cycle
  rw [hv]
  rfl

theorem validate_op_ne_zero {op : Nat} (hop : validate_op op = true) : op ≠ 0 := by
  intro e
  subst e
  exact absurd hop (by decide)

/-- The fields of the instruction are the same before and after the advance
of cell 0, because the instruction does not lie in cell 0. -/
theorem advance_fields (mem : Mem) {ip : Nat} (hip : 4 ≤ ip) :
    op_op (advance mem ip) ip = op_op mem ip
      ∧ op_dst_type (advance mem ip) ip = op_dst_type mem ip
      ∧ op_src1_type (advance mem ip) ip = op_src1_type mem ip
      ∧ op_src2_type (advance mem ip) ip = op_src2_type mem ip
      ∧ (∀ t, valaddr (advance mem ip) (dst_fld ip) t = valaddr mem (dst_fld ip) t)
      ∧ (∀ t, valaddr (advance mem ip) (src1_fld ip) t = valaddr mem (src1_fld ip) t)
      ∧ (∀ t, valaddr (advance mem ip) (src2_fld ip) t = valaddr mem (src2_fld ip) t) := by
  refine ⟨?_, ?_, ?_, ?_, ?_, ?_, ?_⟩
  · unfold op_op; rw [advance_out mem ip hip]
  · unfold op_dst_type; rw [advance_out mem ip (by omega)]
  · unfold op_src1_type; rw [advance_out mem ip (by omega)]
  · unfold op_src2_type; rw [advance_out mem ip (by omega)]
  · intro t; unfold valaddr dst_fld; rw [loadN_advance_out mem ip 4 (by omega)]
  · intro t; unfold valaddr src1_fld; rw [loadN_advance_out mem ip 4 (by omega)]
  · intro t; unfold valaddr src2_fld; rw [loadN_advance_out mem ip 4 (by omega)]

/-- What is known in the executor about an instruction that passed
validation with opcode `op`. -/
theorem validated_setup {h : Host} {m mv : Machine} (hcell : 4 ≤ m.brk)
    (hv : validate h m = .ok mv) (hop : op_op mv.mem (loadN m.mem 0 4) ≠ 0) :
    4 ≤ loadN m.mem 0 4
      ∧ cycle h m
          = dispatch h mv.brk (advance mv.mem (loadN m.mem 0 4)) (loadN m.mem 0 4)
      ∧ op_op (advance mv.mem (loadN m.mem 0 4)) (loadN m.mem 0 4)
          = op_op mv.mem (loadN m.mem 0 4) := by
  have hip := ip_ge_four hcell (validate_ok_grows hv).1 hop
  exact ⟨hip, cycle_validated hv, (advance_fields mv.mem hip).1⟩

/-- The opcode the executor sees has passed `validate_op`. -/
theorem validated_op_valid {h : Host} {m mv : Machine} (hv : validate h m = .ok mv) :
    validate_op (op_op mv.mem (loadN m.mem 0 4)) = true := by
  obtain ⟨m1, m4, e1, hop, _, _⟩ := validate_ok hv
  have g := (validate_after_fetch e1).1 mv hv
  have st := instr_stable g (fetch_ok e1).2
  unfold op_op at hop ⊢
  rw [st _ (Nat.le_refl _) (by omega)]
  exact hop

/-- C2, as amended: for a validated `@` whose byte count
`n = valsize(dst_tag) * value(src2)` (in `uint32_t` arithmetic) is the same
before and after cell 0 is advanced, the cycle completes and the `n` bytes
from `address_of(dst)` on equal the `n` bytes from `address_of(src1)` on as
they were in the validated memory with cell 0 already advanced to `ip + 16`,
also when the two ranges overlap; in particular every source byte at an
offset of 4 or more is the byte of the validated memory.
The cycle is taken `settled` and `inside`: validation has not grown the
buffer after the fetch check and every access ends at or below the break. -/
theorem block_transfer (h : Host) (m mv : Machine) (hcell : 4 ≤ m.brk)
    (hv : validate h m = .ok mv) (_hst : settled h m)
    (_hin : inside h mv (loadN m.mem 0 4)) (hop : op_op mv.mem (loadN m.mem 0 4) = oBlock)
    (hn : block_count h (advance mv.mem (loadN m.mem 0 4)) (loadN m.mem 0 4)
      = block_count h mv.mem (loadN m.mem 0 4)) :
    ∃ m', cycle h m = .running m'
      ∧ (∀ k, k < block_count h mv.mem (loadN m.mem 0 4) →
          m'.mem (valaddr mv.mem (dst_fld (loadN m.mem 0 4))
              (op_dst_type mv.mem (loadN m.mem 0 4)) + k)
            = advance mv.mem (loadN m.mem 0 4)
                (valaddr mv.mem (src1_fld (loadN m.mem 0 4))
                  (op_src1_type mv.mem (loadN m.mem 0 4)) + k))
      ∧ (∀ k, k < block_count h mv.mem (loadN m.mem 0 4) →
          4 ≤ valaddr mv.mem (src1_fld (loadN m.mem 0 4))
              (op_src1_type mv.mem (loadN m.mem 0 4)) + k →
          m'.mem (valaddr mv.mem (dst_fld (loadN m.mem 0 4))
              (op_dst_type mv.mem (loadN m.mem 0 4)) + k)
            = mv.mem (valaddr mv.mem (src1_fld (loadN m.mem 0 4))
                (op_src1_type mv.mem (loadN m.mem 0 4)) + k)) := by
  have hne : op_op mv.mem (loadN m.mem 0 4) ≠ 0 := by rw [hop]; decide
  obtain ⟨hip, hcy, hop0⟩ := validated_setup hcell hv hne
  obtain ⟨_, hdt, ht1, _, hda, hsa, _⟩ := advance_fields mv.mem hip
  generalize loadN m.mem 0 4 = ip at *
  rw [hcy, dispatch_oBlock (hop0.trans hop), hdt, ht1, hda, hsa, hn]
  have hcopy : ∀ k, k < block_count h mv.mem ip →
      memmove (advance mv.mem ip) (valaddr mv.mem (dst_fld ip) (op_dst_type mv.mem ip))
          (valaddr mv.mem (src1_fld ip) (op_src1_type mv.mem ip)) (block_count h mv.mem ip)
          (valaddr mv.mem (dst_fld ip) (op_dst_type mv.mem ip) + k)
        = advance mv.mem ip (valaddr mv.mem (src1_fld ip) (op_src1_type mv.mem ip) + k) := by
    intro k hk
    rw [memmove_in _ _ (by omega) (by omega)]
    congr 1
    omega
  refine ⟨_, rfl, hcopy, ?_⟩
  intro k hk h4
  exact (hcopy k hk).trans (advance_out mv.mem ip h4)

/-- Scenario 4: the bytes `A` .. `H` at 64 .. 71 and `@` with tags `c c U`,
destination 66, source 64 and count 6: the six bytes from 66 on are the six
bytes that were at 64 .. 69, so that 64 .. 71 hold `A B A B C D E F`. -/
theorem block_transfer_witness :
    ∃ m', cycle host0 copy_machine = .running m'
      ∧ (∀ k, k < 6 → 4 ≤ 64 + k → m'.mem (66 + k) = copy_machine.mem (64 + k))
      ∧ (m'.mem 64 = 65 ∧ m'.mem 65 = 66 ∧ m'.mem 66 = 65 ∧ m'.mem 67 = 66
        ∧ m'.mem 68 = 67 ∧ m'.mem 69 = 68 ∧ m'.mem 70 = 69 ∧ m'.mem 71 = 70) := by
  obtain ⟨m', e, _, hk⟩ := block_transfer host0 copy_machine copy_machine (by decide) rfl (by decide) (by decide)
    (by decide) (by decide)
  cases e
  exact ⟨_, rfl, hk, by decide⟩

/-- C2 fails as stated, in two ways.  First, `@` with tags `c c U`,
destination 64, source 0 and count 4 is validated and copies cell 0, which
held 16 before the cycle; the destination receives the bytes of 32, the
instruction pointer as advanced before the copy.  Second, `@` at `ip = 248`
with tags `c c c` whose count is read from the byte at offset 0 is validated
with the count 248, but the executor reads the count after cell 0 has been
advanced to 264 and copies 8 bytes, so the byte at destination offset 100
does not receive the source byte 7. -/
theorem block_transfer_counterexample :
    (validate host0 (boot 4096 (instr oBlock tc tc tU 64 0 4))
        = .ok (boot 4096 (instr oBlock tc tc tU 64 0 4))
      ∧ op_op (boot 4096 (instr oBlock tc tc tU 64 0 4)).mem 16 = oBlock
      ∧ block_count host0 (boot 4096 (instr oBlock tc tc tU 64 0 4)).mem 16 = 4
      ∧ valaddr (boot 4096 (instr oBlock tc tc tU 64 0 4)).mem (dst_fld 16) tc = 64
      ∧ valaddr (boot 4096 (instr oBlock tc tc tU 64 0 4)).mem (src1_fld 16) tc = 0
      ∧ (boot 4096 (instr oBlock tc tc tU 64 0 4)).mem 0 = 16
      ∧ (cycle host0 (boot 4096 (instr oBlock tc tc tU 64 0 4))).machine.mem 64 = 32
      ∧ (cycle host0 (boot 4096 (instr oBlock tc tc tU 64 0 4))).machine.mem 64
          ≠ (boot 4096 (instr oBlock tc tc tU 64 0 4)).mem 0)
    ∧ (validate host0 count_machine = .ok count_machine
      ∧ op_op count_machine.mem 248 = oBlock
      ∧ block_count host0 count_machine.mem 248 = 248
      ∧ block_count host0 (advance count_machine.mem 248) 248 = 8
      ∧ valaddr count_machine.mem (dst_fld 248) tc = 1024
      ∧ valaddr count_machine.mem (src1_fld 248) tc = 2048
      ∧ count_machine.mem (2048 + 100) = 7
      ∧ (cycle host0 count_machine).machine.mem (1024 + 100) = 0) :=
  ⟨⟨rfl, by decide, by decide, by decide, by decide, by decide, by decide, by decide⟩,
    ⟨rfl, by decide, by decide, by decide, by decide, by decide, by decide, by decide⟩⟩

/-! ## Assignment -/

theorem val_is_enc (h : Host) (mem : Mem) (fld t : Nat) {c : CType} (hnf : c.isFloat = false) :
    ∃ z, val h mem fld t c = c.enc z := by
  unfold val cast
  cases readval mem fld t with
  | int v => exact ⟨v, by simp [hnf]⟩
  | flt k b => exact ⟨h.fp_to_int k c b, by simp [hnf]⟩

/-- The assignment `=` at an integer destination type stores source 1 as
converted to that type. -/
theorem unary_op_assign (h : Host) (mem : Mem) (ip : Nat) {c : CType}
    (hc : dst_ctype (op_dst_type mem ip) = some c) (hnf : c.isFloat = false) :
    unary_op h false oAssign mem ip
      = storeN mem (dst_addr mem ip (op_dst_type mem ip)) c.size
          (val h mem (src1_fld ip) (op_src1_type mem ip) c) := by
  obtain ⟨z, hz⟩ := val_is_enc h mem (src1_fld ip) (op_src1_type mem ip) hnf
  unfold unary_op
  simp only [Bool.false_eq_true, if_false, hc]
  unfold unary_cop
  simp only [hnf, Bool.false_eq_true, if_false, if_true]
  rw [hz, c.enc_congr (c.dec_enc_modEq _)]

/-- The immediate destination of `=`, on the cycles where `op` stays valid:
for a validated `=` whose destination tag is immediate (`U` or `I`),
`address_of(dst)` is `ip + 4` (and `address_of` an immediate source 1 is
`ip + 8`), the cycle completes, and afterwards the 4 bytes at `ip + 4` ..
`ip + 7` hold source 1 converted to the 32-bit destination type, which for an
integer source is its value reduced modulo `2 ^ 32`; no byte outside that
field differs from the validated memory with cell 0 advanced.
The cycle is taken `settled` and `inside`: validation has not grown the
buffer after the fetch check and every access ends at or below the break. -/
theorem assign_immediate_dst (h : Host) (m mv : Machine) (hcell : 4 ≤ m.brk)
    (hv : validate h m = .ok mv) (_hst : settled h m)
    (_hin : inside h mv (loadN m.mem 0 4)) (hop : op_op mv.mem (loadN m.mem 0 4) = oAssign)
    (hd : op_dst_type mv.mem (loadN m.mem 0 4) = tU
      ∨ op_dst_type mv.mem (loadN m.mem 0 4) = tI) :
    valaddr mv.mem (dst_fld (loadN m.mem 0 4)) (op_dst_type mv.mem (loadN m.mem 0 4))
        = loadN m.mem 0 4 + 4
    ∧ (∀ t, t = tU ∨ t = tI ∨ t = tF →
        valaddr mv.mem (src1_fld (loadN m.mem 0 4)) t = loadN m.mem 0 4 + 8)
    ∧ ∃ m', cycle h m = .running m'
      ∧ loadN m'.mem (loadN m.mem 0 4 + 4) 4
          = val h (advance mv.mem (loadN m.mem 0 4)) (src1_fld (loadN m.mem 0 4))
              (op_src1_type mv.mem (loadN m.mem 0 4))
              (if op_dst_type mv.mem (loadN m.mem 0 4) = tU then CType.u32 else CType.i32)
      ∧ (is_int_tag (op_src1_type mv.mem (loadN m.mem 0 4)) →
          ((loadN m'.mem (loadN m.mem 0 4 + 4) 4 : Nat) : Int)
            = typed_value (advance mv.mem (loadN m.mem 0 4)) (src1_fld (loadN m.mem 0 4))
                (op_src1_type mv.mem (loadN m.mem 0 4)) % 2 ^ 32)
      ∧ (∀ x, ¬ (loadN m.mem 0 4 + 4 ≤ x ∧ x < loadN m.mem 0 4 + 8) →
          m'.mem x = advance mv.mem (loadN m.mem 0 4) x) := by
  have hne : op_op mv.mem (loadN m.mem 0 4) ≠ 0 := by rw [hop]; decide
  obtain ⟨hip, hcy, hop0⟩ := validated_setup hcell hv hne
  obtain ⟨_, hdt, ht1, _, hda, _, _⟩ := advance_fields mv.mem hip
  generalize loadN m.mem 0 4 = ip at *
  have hc : ∃ c, dst_ctype (op_dst_type mv.mem ip) = some c ∧ c.isFloat = false
      ∧ c.size = 4 ∧ c.bits = 32
      ∧ (if op_dst_type mv.mem ip = tU then CType.u32 else CType.i32) = c
      ∧ dst_addr mv.mem ip (op_dst_type mv.mem ip) = ip + 4
      ∧ valaddr mv.mem (dst_fld ip) (op_dst_type mv.mem ip) = ip + 4 := by
    rcases hd with e | e <;> rw [e]
    · exact ⟨.u32, rfl, rfl, rfl, rfl, rfl, rfl, rfl⟩
    · exact ⟨.i32, rfl, rfl, rfl, rfl, rfl, rfl, rfl⟩
  obtain ⟨c, hc, hnf, hsz, hbits, hsel, hdst, hva⟩ := hc
  refine ⟨hva, ?_, ?_⟩
  · intro t ht
    rcases ht with e | e | e <;> rw [e] <;> rfl
  have hun := unary_op_assign h (advance mv.mem ip) ip (by rw [hdt]; exact hc) hnf
  rw [hdt, ht1, dst_addr_eq_valaddr, hda, ← dst_addr_eq_valaddr, hdst, hsz] at hun
  rw [hcy, dispatch_oAssign (hop0.trans hop), hun, hsel]
  obtain ⟨z, hz⟩ := val_is_enc h (advance mv.mem ip) (src1_fld ip) (op_src1_type mv.mem ip) hnf
  have hload : loadN (storeN (advance mv.mem ip) (ip + 4) 4
      (val h (advance mv.mem ip) (src1_fld ip) (op_src1_type mv.mem ip) c)) (ip + 4) 4
        = val h (advance mv.mem ip) (src1_fld ip) (op_src1_type mv.mem ip) c := by
    have := loadN_storeN_enc (advance mv.mem ip) (ip + 4) c z
    rw [hsz, ← hz] at this
    exact this
  refine ⟨_, rfl, hload, ?_, ?_⟩
  · intro h1
    show ((loadN (storeN _ _ _ _) _ _ : Nat) : Int) = _
    rw [hload, val_int h _ _ h1 hnf, c.enc_cast, hbits]
  · intro x hx
    exact storeN_out _ _ (by omega)

/-- The instruction `=` with tags `U U U`, destination field 0 and source 7
at `ip = 16` writes 7 into its own destination field at 20 .. 23. -/
theorem assign_immediate_dst_witness :
    ∃ m', cycle host0 (boot 4096 (instr oAssign tU tU tU 0 7 0)) = .running m'
      ∧ ((loadN m'.mem 20 4 : Nat) : Int) = 7 := by
  obtain ⟨_, _, m', e, _, hval, _⟩ := assign_immediate_dst host0
    (boot 4096 (instr oAssign tU tU tU 0 7 0)) (boot 4096 (instr oAssign tU tU tU 0 7 0))
    (by decide) rfl (by decide) (by decide) (by decide) (by decide)
  exact ⟨m', e, hval (by decide)⟩

/-- C10 fails on the code: `=` with tags `U U c` at `ip = 64` in a 4096-byte
buffer, with source 7 and a source-2 operand of 5000.  The fetch check leaves
the break at 4096, and `op` is computed on that buffer; the three operand
checks pass, and the one of source 2 calls `realloc` and grows the buffer to
5001 bytes, so the cycle is not settled.  The source goes on through the `op`
it computed before the `realloc` and executes `op->dst.u = 7` through it:
when the buffer has moved, the store does not reach the destination field at
68 .. 71 of the machine's memory, which holds `0x11223344`. -/
theorem immediate_dst_after_growth :
    op_op growing_machine.mem 64 = oAssign
      ∧ op_dst_type growing_machine.mem 64 = tU
      ∧ op_src2_type growing_machine.mem 64 = tc
      ∧ loadN growing_machine.mem (src2_fld 64) 4 = 5000
      ∧ loadN growing_machine.mem (64 + 4) 4 = 287454020
      ∧ (fetched host0 growing_machine).brk = 4096
      ∧ (∃ m4, validate_args host0 64 (fetched host0 growing_machine) = .ok m4
          ∧ m4.brk = 5001)
      ∧ ¬ settled host0 growing_machine :=
  ⟨by decide, by decide, by decide, by decide, by decide, by decide, ⟨_, rfl, by decide⟩,
    by decide⟩

/-! ## Bounds of the accesses -/

/-- C1 fails on the code: `=` with tags `c U U` and destination operand
`0xFFFFFFFF` passes validation in a 4096-byte machine, because `validate_arg`
checks `(0xFFFFFFFF + 1) mod 2 ^ 32 = 0` against the break; the break stays
4096, the write range of the operator is the byte at offset 4294967295, and
the executor stores the source value 65 there. -/
theorem validated_store_out_of_bounds :
    validate host0 (boot 4096 (instr oAssign tc tU tU 4294967295 65 0))
        = .ok (boot 4096 (instr oAssign tc tU tU 4294967295 65 0))
      ∧ write_range host0
          (advance (boot 4096 (instr oAssign tc tU tU 4294967295 65 0)).mem 16) 16
          = (4294967295, 1)
      ∧ (boot 4096 (instr oAssign tc tU tU 4294967295 65 0)).mem 4294967295 = 0
      ∧ (cycle host0 (boot 4096 (instr oAssign tc tU tU 4294967295 65 0))).machine.mem
          4294967295 = 65
      ∧ (cycle host0 (boot 4096 (instr oAssign tc tU tU 4294967295 65 0))).machine.brk = 4096
      ∧ ¬ (4294967295
          < (cycle host0 (boot 4096 (instr oAssign tc tU tU 4294967295 65 0))).machine.brk) :=
  ⟨rfl, by decide, by decide, by decide, by decide, by decide⟩

/-! ## Type tags -/

/-- A byte that is none of the thirteen tags selects no case anywhere. -/
theorem invalid_tag {t : Nat} (ht : ¬ is_tag t) :
    dst_ctype t = none ∧ dst_ctype_nofloat t = none ∧ valsize t = 0
      ∧ ∀ (h : Host) (addr : Nat) (m : Machine),
          validate_arg h addr t m = .error (Error.InvalidType, m) := by
  simp only [is_tag, not_or] at ht
  obtain ⟨h1, h2, h3, h4, h5, h6, h7, h8, h9, h10, h11, h12, h13⟩ := ht
  refine ⟨?_, ?_, ?_, ?_⟩
  · simp only [dst_ctype, h1, h2, h3, h4, h5, h6, h7, h8, h9, h10, h11, h12, h13, if_false]
  · simp only [dst_ctype_nofloat, h1, h2, h4, h5, h7, h8, h10, h11, h12, h13, if_false]
  · simp only [valsize, h1, h2, h3, h4, h5, h6, h7, h8, h9, h10, h11, h12, h13, if_false]
  · intro h addr m
    simp only [validate_arg, h1, h2, h3, h4, h5, h6, h7, h8, h9, h10, h11, h12, h13, or_self,
      if_false]

theorem dst_ctype_size {t : Nat} {c : CType} (hc : dst_ctype t = some c) :
    c.size = valsize t := by
  by_cases ht : is_tag t
  · rcases ht with e | e | e | e | e | e | e | e | e | e | e | e | e <;> subst e <;>
      (cases hc; rfl)
  · rw [(invalid_tag ht).1] at hc
    cases hc

theorem dst_ctype_nofloat_sub {t : Nat} {c : CType} (hc : dst_ctype_nofloat t = some c) :
    dst_ctype t = some c := by
  by_cases ht : is_tag t
  · rcases ht with e | e | e | e | e | e | e | e | e | e | e | e | e <;> subst e <;>
      first | (cases hc; rfl) | cases hc
  · rw [(invalid_tag ht).2.1] at hc
    cases hc

/-! ## Fatal exits -/

theorem dispatch_not_fatal (h : Host) (brk : Nat) (mem : Mem) (ip : Nat) :
    ∀ e m', dispatch h brk mem ip ≠ .fatal e m' := by
  have hfin : ∀ r : Option Mem, ∀ e m', finish brk mem r ≠ .fatal e m' := by
    intro r e m' hr
    cases r <;> cases hr
  apply dispatch_cases (P := fun o => ∀ e m', o ≠ .fatal e m') <;> intro _ <;>
    first
    | exact hfin _
    | (intro e m' hr; cases hr)

/-- A cycle is fatal exactly when its validation ends in that error. -/
theorem cycle_fatal_iff (h : Host) (m m' : Machine) (e : Error) :
    cycle h m = .fatal e m' ↔ validate h m = .error (e, m') := by
  unfold cycle
  split
  · rename_i e1 m1 he
    rw [he]
    constructor
    · intro hf; cases hf; rfl
    · intro hf; cases hf; rfl
  · rename_i mv he
    rw [he]
    constructor
    · intro hf
      exact absurd hf (dispatch_not_fatal h _ _ _ e m')
    · intro hf; cases hf

/-- C20: a fatal error is atomic with respect to the memory contents: when a
cycle ends in a fatal error (of any of the five kinds), every byte at an
offset below the old break has the value it had before the cycle, the
instruction pointer in cell 0 included, and the break has not shrunk; the
bytes at or past the ceiling are untouched as well, so the only change is the
growth of the buffer. -/
theorem fatal_atomic (h : Host) (m m' : Machine) (e : Error)
    (hf : cycle h m = .fatal e m') :
    (∀ x, x < m.brk → m'.mem x = m.mem x)
      ∧ (4 ≤ m.brk → loadN m'.mem 0 4 = loadN m.mem 0 4)
      ∧ m.brk ≤ m'.brk
      ∧ (m'.brk ≤ m.brk ∨ m'.brk ≤ brk_max)
      ∧ (∀ x, brk_max ≤ x → m'.mem x = m.mem x)
      ∧ (e = Error.InvalidIP ∨ e = Error.InvalidOp ∨ e = Error.InvalidType
          ∨ e = Error.NoMemory ∨ e = Error.InvalidTypeForOp) := by
  have g := validate_error_grows ((cycle_fatal_iff h m m' e).mp hf)
  refine ⟨fun x hx => g.2.2 x (Or.inl hx), ?_, g.1, g.2.1, fun x hx => g.2.2 x (Or.inr hx), ?_⟩
  · intro h4
    apply loadN_congr
    intro x _ hx
    exact g.2.2 x (Or.inl (by omega))
  · cases e <;> simp

/-- An operand check that grows the buffer from 32 to 72 bytes and then meets
an unknown source tag: the cycle is fatal, the 32 old bytes are unchanged and
the break has grown. -/
theorem fatal_atomic_witness :
    (∀ x, x < (boot 32 (instr oAssign tz 0 tU 64 0 0)).brk →
        (cycle host0 (boot 32 (instr oAssign tz 0 tU 64 0 0))).machine.mem x
          = (boot 32 (instr oAssign tz 0 tU 64 0 0)).mem x)
      ∧ (boot 32 (instr oAssign tz 0 tU 64 0 0)).brk
          ≤ (cycle host0 (boot 32 (instr oAssign tz 0 tU 64 0 0))).machine.brk
      ∧ (cycle host0 (boot 32 (instr oAssign tz 0 tU 64 0 0))).machine.brk = 72 :=
  ⟨(fatal_atomic host0 (boot 32 (instr oAssign tz 0 tU 64 0 0)) _ Error.InvalidType rfl).1,
    (fatal_atomic host0 (boot 32 (instr oAssign tz 0 tU 64 0 0)) _ Error.InvalidType rfl).2.2.1,
    by decide⟩

/-! ## The write frame of a cycle -/

theorem write_range_nop {h : Host} {mem : Mem} {ip : Nat} (hop : op_op mem ip = oNop) :
    write_range h mem ip = (0, 0) := by
  unfold write_range
  rw [hop]
  rfl

/-- The write range of a value-producing operator lies in the destination
cell `[address_of(dst), address_of(dst) + valsize(dst_tag))`. -/
theorem write_range_sub_dst {h : Host} {mem : Mem} {ip : Nat}
    (hop : is_value_op (op_op mem ip)) {x : Nat}
    (hx : (write_range h mem ip).1 ≤ x
      ∧ x < (write_range h mem ip).1 + (write_range h mem ip).2) :
    valaddr mem (dst_fld ip) (op_dst_type mem ip) ≤ x
      ∧ x < valaddr mem (dst_fld ip) (op_dst_type mem ip) + valsize (op_dst_type mem ip) := by
  have hval : ∀ sel : Option CType, (∀ c, sel = some c → dst_ctype (op_dst_type mem ip) = some c) →
      write_range h mem ip
        = (match sel with
          | none => (0, 0)
          | some c => (dst_addr mem ip (op_dst_type mem ip), c.size)) →
      valaddr mem (dst_fld ip) (op_dst_type mem ip) ≤ x
        ∧ x < valaddr mem (dst_fld ip) (op_dst_type mem ip)
            + valsize (op_dst_type mem ip) := by
    intro sel hsel hw
    rw [hw] at hx
    cases sel with
    | none => simp at hx
    | some c =>
      rw [← dst_ctype_size (hsel c rfl), ← dst_addr_eq_valaddr]
      exact hx
  have hv7 : ∀ (_ : op_op mem ip = oAssign ∨ op_op mem ip = oNeg ∨ op_op mem ip = oAdd
      ∨ op_op mem ip = oSub ∨ op_op mem ip = oMul ∨ op_op mem ip = oDiv
      ∨ op_op mem ip = oRem),
      valaddr mem (dst_fld ip) (op_dst_type mem ip) ≤ x
        ∧ x < valaddr mem (dst_fld ip) (op_dst_type mem ip)
            + valsize (op_dst_type mem ip) :=
    fun h7 => hval _ (fun c hc => hc) (write_range_value h7)
  have hb6 : is_bitwise (op_op mem ip) →
      valaddr mem (dst_fld ip) (op_dst_type mem ip) ≤ x
        ∧ x < valaddr mem (dst_fld ip) (op_dst_type mem ip)
            + valsize (op_dst_type mem ip) :=
    fun h6 => hval _ (fun c hc => dst_ctype_nofloat_sub hc) (write_range_bitwise h6)
  rcases hop with e | e | e | e | e | e | e | e | e | e | e | e | e
  · exact hv7 (Or.inl e)
  · exact hb6 (Or.inl e)
  · exact hb6 (Or.inr (Or.inl e))
  · exact hb6 (Or.inr (Or.inr (Or.inl e)))
  · exact hb6 (Or.inr (Or.inr (Or.inr (Or.inl e))))
  · exact hb6 (Or.inr (Or.inr (Or.inr (Or.inr (Or.inl e)))))
  · exact hb6 (Or.inr (Or.inr (Or.inr (Or.inr (Or.inr e)))))
  · exact hv7 (Or.inr (Or.inl e))
  · exact hv7 (Or.inr (Or.inr (Or.inl e)))
  · exact hv7 (Or.inr (Or.inr (Or.inr (Or.inl e))))
  · exact hv7 (Or.inr (Or.inr (Or.inr (Or.inr (Or.inl e)))))
  · exact hv7 (Or.inr (Or.inr (Or.inr (Or.inr (Or.inr (Or.inl e))))))
  · exact hv7 (Or.inr (Or.inr (Or.inr (Or.inr (Or.inr (Or.inr e))))))

/-- C19: the write frame of one cycle.  For a validated instruction whose
opcode is a value-producing operator, a byte outside cell 0 and outside the
destination cell (the `valsize(dst_tag)` bytes from `address_of(dst)` on) has
after the cycle the value it has in the validated memory, and below the old
break the value it had before the cycle; for the opcode `_` this holds for
every byte outside cell 0.  The break is the one validation left. -/
theorem write_frame (h : Host) (m mv : Machine) (hcell : 4 ≤ m.brk)
    (hv : validate h m = .ok mv) :
    (is_value_op (op_op mv.mem (loadN m.mem 0 4)) →
      ∀ x, 4 ≤ x →
        ¬ (valaddr mv.mem (dst_fld (loadN m.mem 0 4)) (op_dst_type mv.mem (loadN m.mem 0 4)) ≤ x
          ∧ x < valaddr mv.mem (dst_fld (loadN m.mem 0 4))
                  (op_dst_type mv.mem (loadN m.mem 0 4))
                + valsize (op_dst_type mv.mem (loadN m.mem 0 4))) →
        (cycle h m).machine.mem x = mv.mem x
          ∧ (x < m.brk → (cycle h m).machine.mem x = m.mem x))
    ∧ (op_op mv.mem (loadN m.mem 0 4) = oNop →
      ∀ x, 4 ≤ x →
        (cycle h m).machine.mem x = mv.mem x
          ∧ (x < m.brk → (cycle h m).machine.mem x = m.mem x))
    ∧ (cycle h m).machine.brk = mv.brk := by
  have hne := validate_op_ne_zero (validated_op_valid hv)
  have g := (validate_ok_grows hv).1
  obtain ⟨hip, hcy, hop0⟩ := validated_setup hcell hv hne
  obtain ⟨_, hdt, _, _, hda, _, _⟩ := advance_fields mv.mem hip
  generalize loadN m.mem 0 4 = ip at *
  have hout : ∀ x, 4 ≤ x →
      ¬ ((write_range h (advance mv.mem ip) ip).1 ≤ x
        ∧ x < (write_range h (advance mv.mem ip) ip).1
            + (write_range h (advance mv.mem ip) ip).2) →
      (cycle h m).machine.mem x = mv.mem x
        ∧ (x < m.brk → (cycle h m).machine.mem x = m.mem x) := by
    intro x h4 hx
    have e1 : (cycle h m).machine.mem x = mv.mem x := by
      rw [hcy, dispatch_frame h mv.brk _ ip x hx, advance_out mv.mem ip h4]
    exact ⟨e1, fun hlt => e1.trans (g.2.2 x (Or.inl hlt))⟩
  refine ⟨?_, ?_, ?_⟩
  · intro hop x h4 hx
    apply hout x h4
    intro hw
    have := write_range_sub_dst (h := h) (by rw [hop0]; exact hop) hw
    rw [hdt, hda] at this
    exact hx this
  · intro hop x h4
    apply hout x h4
    rw [write_range_nop (hop0.trans hop)]
    simp
  · rw [hcy, dispatch_brk]

/-- The instruction `+` with tags `u U U` and destination 64: the bytes at
63 and at 68, next to the destination cell, are after the cycle what they
were before it. -/
theorem write_frame_witness :
    ((cycle host0 (boot 4096 (instr oAdd tu tU tU 64 5 7))).machine.mem 63
        = (boot 4096 (instr oAdd tu tU tU 64 5 7)).mem 63
      ∧ (63 < 4096 → (cycle host0 (boot 4096 (instr oAdd tu tU tU 64 5 7))).machine.mem 63
        = (boot 4096 (instr oAdd tu tU tU 64 5 7)).mem 63))
    ∧ ((cycle host0 (boot 4096 (instr oAdd tu tU tU 64 5 7))).machine.mem 68
        = (boot 4096 (instr oAdd tu tU tU 64 5 7)).mem 68
      ∧ (68 < 4096 → (cycle host0 (boot 4096 (instr oAdd tu tU tU 64 5 7))).machine.mem 68
        = (boot 4096 (instr oAdd tu tU tU 64 5 7)).mem 68)) :=
  ⟨(write_frame host0 (boot 4096 (instr oAdd tu tU tU 64 5 7))
      (boot 4096 (instr oAdd tu tU tU 64 5 7)) (by decide) rfl).1 (by decide) 63 (by decide)
      (by decide),
    (write_frame host0 (boot 4096 (instr oAdd tu tU tU 64 5 7))
      (boot 4096 (instr oAdd tu tU tU 64 5 7)) (by decide) rfl).1 (by decide) 68 (by decide)
      (by decide)⟩

/-! ## Halt -/

theorem validate_op_iff (op : Nat) :
    validate_op op = true ↔
      (op = oNop ∨ op = oAssign ∨ op = oBlock ∨ op = oNot ∨ op = oAnd ∨ op = oOr ∨ op = oXor
        ∨ op = oShl ∨ op = oShr ∨ op = oNeg ∨ op = oAdd ∨ op = oSub ∨ op = oMul ∨ op = oDiv
        ∨ op = oRem ∨ op = oHalt) := by
  simp only [validate_op, Bool.or_eq_true, decide_eq_true_eq, or_assoc]

/-- An opcode byte that `validate_op` rejects ends the cycle in `InvalidOp`
on the machine the fetch check left. -/
theorem cycle_invalid_op {h : Host} {m m1 : Machine}
    (hf : fetch h (loadN m.mem 0 4) m = .ok m1)
    (hop : validate_op (op_op m1.mem (loadN m.mem 0 4)) = false) :
    cycle h m = .fatal Error.InvalidOp m1 := by
  rw [cycle_fatal_iff]
  simp [validate, hf, check_op, hop, bind, Except.bind]

/-- C15: `validate_arg` rejects a tag byte with `InvalidType` if and only if
it is none of the thirteen tags `U I F z l d u i f h s c b`, and then leaves
the machine as it is.  For an immediate tag it returns without any memory
check; for an indirect tag it is `assert_brk` of `addr + valsize(tag)`, the
`uint32_t` sum of the source (the sum itself when it is below `2 ^ 32`), and
the widths are 8 for `z l d`, 4 for `u i f` (and the immediates), 2 for `h s`
and 1 for `c b`. -/
theorem validate_arg_tags (h : Host) (addr t : Nat) (m : Machine) :
    ((∃ m', validate_arg h addr t m = .error (Error.InvalidType, m')) ↔ ¬ is_tag t)
    ∧ (¬ is_tag t → validate_arg h addr t m = .error (Error.InvalidType, m))
    ∧ (t = tU ∨ t = tI ∨ t = tF → validate_arg h addr t m = .ok m)
    ∧ (t = tz ∨ t = tl ∨ t = td ∨ t = tu ∨ t = ti ∨ t = tf ∨ t = th ∨ t = ts ∨ t = tc
        ∨ t = tb →
        validate_arg h addr t m = assert_brk h (u32 (addr + valsize t)) m
        ∧ (addr + valsize t < 2 ^ 32 →
            validate_arg h addr t m = assert_brk h (addr + valsize t) m)
        ∧ ∀ m', validate_arg h addr t m = .ok m' → u32 (addr + valsize t) ≤ m'.brk)
    ∧ (valsize tz = 8 ∧ valsize tl = 8 ∧ valsize td = 8 ∧ valsize tu = 4 ∧ valsize ti = 4
        ∧ valsize tf = 4 ∧ valsize th = 2 ∧ valsize ts = 2 ∧ valsize tc = 1 ∧ valsize tb = 1
        ∧ valsize tU = 4 ∧ valsize tI = 4 ∧ valsize tF = 4) := by
  have himm : t = tU ∨ t = tI ∨ t = tF → validate_arg h addr t m = .ok m := by
    intro ht
    unfold validate_arg
    rw [if_pos ht]
  have hind : t = tz ∨ t = tl ∨ t = td ∨ t = tu ∨ t = ti ∨ t = tf ∨ t = th ∨ t = ts ∨ t = tc
      ∨ t = tb → validate_arg h addr t m = assert_brk h (u32 (addr + valsize t)) m := by
    intro ht
    rcases ht with e | e | e | e | e | e | e | e | e | e <;> subst e <;> rfl
  refine ⟨⟨?_, ?_⟩, fun ht => (invalid_tag ht).2.2.2 h addr m, himm, ?_, by decide⟩
  · rintro ⟨m', he⟩ ht
    rcases ht with e | e | e | e | e | e | e | e | e | e | e | e | e
    · rw [himm (Or.inl e)] at he; cases he
    · rw [himm (Or.inr (Or.inl e))] at he; cases he
    · rw [himm (Or.inr (Or.inr e))] at he; cases he
    · rw [hind (Or.inl e)] at he
      exact absurd (assert_brk_error he).1 (by decide)
    · rw [hind (Or.inr (Or.inl e))] at he
      exact absurd (assert_brk_error he).1 (by decide)
    · rw [hind (Or.inr (Or.inr (Or.inl e)))] at he
      exact absurd (assert_brk_error he).1 (by decide)
    · rw [hind (Or.inr (Or.inr (Or.inr (Or.inl e))))] at he
      exact absurd (assert_brk_error he).1 (by decide)
    · rw [hind (Or.inr (Or.inr (Or.inr (Or.inr (Or.inl e)))))] at he
      exact absurd (assert_brk_error he).1 (by decide)
    · rw [hind (Or.inr (Or.inr (Or.inr (Or.inr (Or.inr (Or.inl e))))))] at he
      exact absurd (assert_brk_error he).1 (by decide)
    · rw [hind (Or.inr (Or.inr (Or.inr (Or.inr (Or.inr (Or.inr (Or.inl e)))))))] at he
      exact absurd (assert_brk_error he).1 (by decide)
    · rw [hind (Or.inr (Or.inr (Or.inr (Or.inr (Or.inr (Or.inr (Or.inr (Or.inl e))))))))] at he
      exact absurd (assert_brk_error he).1 (by decide)
    · rw [hind (Or.inr (Or.inr (Or.inr (Or.inr (Or.inr (Or.inr (Or.inr (Or.inr
        (Or.inl e)))))))))] at he
      exact absurd (assert_brk_error he).1 (by decide)
    · rw [hind (Or.inr (Or.inr (Or.inr (Or.inr (Or.inr (Or.inr (Or.inr (Or.inr
        (Or.inr e)))))))))] at he
      exact absurd (assert_brk_error he).1 (by decide)
  · intro ht
    exact ⟨m, (invalid_tag ht).2.2.2 h addr m⟩
  · intro ht
    refine ⟨hind ht, ?_, ?_⟩
    · intro hlt
      rw [hind ht]
      unfold u32
      rw [Nat.mod_eq_of_lt hlt]
    · intro m' he
      rw [hind ht] at he
      exact (assert_brk_ok he).2

/-- The tag `z` with operand 64 in a 32-byte machine: the call is
`assert_brk(72)` and it leaves the break at 72. -/
theorem validate_arg_tags_witness :
    validate_arg host0 64 tz (boot 32 []) = assert_brk host0 (u32 (64 + valsize tz)) (boot 32 [])
      ∧ (64 + valsize tz < 2 ^ 32 →
          validate_arg host0 64 tz (boot 32 []) = assert_brk host0 (64 + valsize tz) (boot 32 []))
      ∧ ∀ m', validate_arg host0 64 tz (boot 32 []) = .ok m' → u32 (64 + valsize tz) ≤ m'.brk :=
  (validate_arg_tags host0 64 tz (boot 32 [])).2.2.2.1 (by decide)

/-- C16: `validate_op` accepts a byte if and only if it is one of the sixteen
characters `_ = @ ! & | ^ < > ~ + - * / % #`.  For every other opcode byte of
a fetched instruction the cycle ends in the fatal error `InvalidOp` on the
machine the fetch check left: no tag has been examined, no operand check has
grown the buffer, and no byte below the old break has changed.  Every opcode
that passes `validate_op` selects its own `case` of the dispatch switch. -/
theorem validate_op_table :
    (∀ op, validate_op op = true ↔
      (op = oNop ∨ op = oAssign ∨ op = oBlock ∨ op = oNot ∨ op = oAnd ∨ op = oOr ∨ op = oXor
        ∨ op = oShl ∨ op = oShr ∨ op = oNeg ∨ op = oAdd ∨ op = oSub ∨ op = oMul ∨ op = oDiv
        ∨ op = oRem ∨ op = oHalt))
    ∧ [oNop, oAssign, oBlock, oNot, oAnd, oOr, oXor, oShl, oShr, oNeg, oAdd, oSub, oMul, oDiv,
        oRem, oHalt]
        = ['_', '=', '@', '!', '&', '|', '^', '<', '>', '~', '+', '-', '*', '/', '%', '#'].map
            Char.toNat
    ∧ (∀ (h : Host) (m m1 : Machine), fetch h (loadN m.mem 0 4) m = .ok m1 →
        validate_op (op_op m1.mem (loadN m.mem 0 4)) = false →
        cycle h m = .fatal Error.InvalidOp m1 ∧ m1 = fetched h m
          ∧ ∀ x, x < m.brk → m1.mem x = m.mem x)
    ∧ (∀ (h : Host) (brk : Nat) (mem : Mem) (ip : Nat), validate_op (op_op mem ip) = true →
      (op_op mem ip = oNop
          ∧ dispatch h brk mem ip
            = Outcome.running { mem := mem, brk := brk })
      ∨ (op_op mem ip = oAssign
          ∧ dispatch h brk mem ip
            = finish brk mem (some (unary_op h false oAssign mem ip)))
      ∨ (op_op mem ip = oBlock
          ∧ dispatch h brk mem ip
            = finish brk mem (some (memmove mem (valaddr mem (dst_fld ip) (op_dst_type mem ip))
              (valaddr mem (src1_fld ip) (op_src1_type mem ip)) (block_count h mem ip))))
      ∨ (op_op mem ip = oNot
          ∧ dispatch h brk mem ip
            = finish brk mem (some (unary_op h true oNot mem ip)))
      ∨ (op_op mem ip = oAnd
          ∧ dispatch h brk mem ip
            = finish brk mem (binary_op h true oAnd mem ip))
      ∨ (op_op mem ip = oOr
          ∧ dispatch h brk mem ip
            = finish brk mem (binary_op h true oOr mem ip))
      ∨ (op_op mem ip = oXor
          ∧ dispatch h brk mem ip
            = finish brk mem (binary_op h true oXor mem ip))
      ∨ (op_op mem ip = oShl
          ∧ dispatch h brk mem ip
            = finish brk mem (binary_op h true oShl mem ip))
      ∨ (op_op mem ip = oShr
          ∧ dispatch h brk mem ip
            = finish brk mem (binary_op h true oShr mem ip))
      ∨ (op_op mem ip = oNeg
          ∧ dispatch h brk mem ip
            = finish brk mem (some (unary_op h false oNeg mem ip)))
      ∨ (op_op mem ip = oAdd
          ∧ dispatch h brk mem ip
            = finish brk mem (binary_op h false oAdd mem ip))
      ∨ (op_op mem ip = oSub
          ∧ dispatch h brk mem ip
            = finish brk mem (binary_op h false oSub mem ip))
      ∨ (op_op mem ip = oMul
          ∧ dispatch h brk mem ip
            = finish brk mem (binary_op h false oMul mem ip))
      ∨ (op_op mem ip = oDiv
          ∧ dispatch h brk mem ip
            = finish brk mem (binary_op h false oDiv mem ip))
      ∨ (op_op mem ip = oRem
          ∧ dispatch h brk mem ip
            = finish brk mem (rem_op h mem ip))
      ∨ (op_op mem ip = oHalt
          ∧ dispatch h brk mem ip
            = Outcome.halted { mem := mem, brk := brk })) := by
  refine ⟨validate_op_iff, by decide, ?_, ?_⟩
  · intro h m m1 hf hop
    exact ⟨cycle_invalid_op hf hop, fetch_eq_fetched hf,
      fun x hx => (fetch_ok hf).1.2.2 x (Or.inl hx)⟩
  · intro h brk mem ip hop
    rcases (validate_op_iff _).mp hop with e | e | e | e | e | e | e | e | e | e | e | e | e | e
      | e | e
    · exact Or.inl ⟨e, dispatch_oNop e⟩
    · exact Or.inr (Or.inl ⟨e, dispatch_oAssign e⟩)
    · exact Or.inr (Or.inr (Or.inl ⟨e, dispatch_oBlock e⟩))
    · exact Or.inr (Or.inr (Or.inr (Or.inl ⟨e, dispatch_oNot e⟩)))
    · exact Or.inr (Or.inr (Or.inr (Or.inr (Or.inl ⟨e, dispatch_oAnd e⟩))))
    · exact Or.inr (Or.inr (Or.inr (Or.inr (Or.inr (Or.inl ⟨e, dispatch_oOr e⟩)))))
    · exact Or.inr (Or.inr (Or.inr (Or.inr (Or.inr (Or.inr (Or.inl ⟨e, dispatch_oXor e⟩))))))
    · exact Or.inr (Or.inr (Or.inr (Or.inr (Or.inr (Or.inr (Or.inr (Or.inl ⟨e, dispatch_oShl e⟩)))))))
    · exact Or.inr (Or.inr (Or.inr (Or.inr (Or.inr (Or.inr (Or.inr (Or.inr (Or.inl ⟨e, dispatch_oShr e⟩))))))))
    · exact Or.inr (Or.inr (Or.inr (Or.inr (Or.inr (Or.inr (Or.inr (Or.inr (Or.inr (Or.inl ⟨e, dispatch_oNeg e⟩)))))))))
    · exact Or.inr (Or.inr (Or.inr (Or.inr (Or.inr (Or.inr (Or.inr (Or.inr (Or.inr (Or.inr (Or.inl ⟨e, dispatch_oAdd e⟩))))))))))
    · exact Or.inr (Or.inr (Or.inr (Or.inr (Or.inr (Or.inr (Or.inr (Or.inr (Or.inr (Or.inr (Or.inr (Or.inl ⟨e, dispatch_oSub e⟩)))))))))))
    · exact Or.inr (Or.inr (Or.inr (Or.inr (Or.inr (Or.inr (Or.inr (Or.inr (Or.inr (Or.inr (Or.inr (Or.inr (Or.inl ⟨e, dispatch_oMul e⟩))))))))))))
    · exact Or.inr (Or.inr (Or.inr (Or.inr (Or.inr (Or.inr (Or.inr (Or.inr (Or.inr (Or.inr (Or.inr (Or.inr (Or.inr (Or.inl ⟨e, dispatch_oDiv e⟩)))))))))))))
    · exact Or.inr (Or.inr (Or.inr (Or.inr (Or.inr (Or.inr (Or.inr (Or.inr (Or.inr (Or.inr (Or.inr (Or.inr (Or.inr (Or.inr (Or.inl ⟨e, dispatch_oRem e⟩))))))))))))))
    · exact Or.inr (Or.inr (Or.inr (Or.inr (Or.inr (Or.inr (Or.inr (Or.inr (Or.inr (Or.inr (Or.inr (Or.inr (Or.inr (Or.inr (Or.inr (⟨e, dispatch_oHalt e⟩)))))))))))))))

/-- The opcode byte `?` (63) at `ip = 16`: the cycle ends in `InvalidOp` on
the unchanged machine. -/
theorem validate_op_table_witness :
    cycle host0 (boot 4096 (instr 63 tU tU tU 0 0 0))
        = .fatal Error.InvalidOp (boot 4096 (instr 63 tU tU tU 0 0 0))
      ∧ boot 4096 (instr 63 tU tU tU 0 0 0) = fetched host0 (boot 4096 (instr 63 tU tU tU 0 0 0))
      ∧ ∀ x, x < (boot 4096 (instr 63 tU tU tU 0 0 0)).brk →
          (boot 4096 (instr 63 tU tU tU 0 0 0)).mem x = (boot 4096 (instr 63 tU tU tU 0 0 0)).mem x :=
  validate_op_table.2.2.1 host0 (boot 4096 (instr 63 tU tU tU 0 0 0))
    (boot 4096 (instr 63 tU tU tU 0 0 0)) rfl (by decide)

/-- C17, as amended: the opcode bytes accepted by `validate_op` are exactly
sixteen, all of them below 256, and any other opcode byte of a fetched
instruction ends the cycle in the fatal error `InvalidOp`. -/
theorem opcode_count (h : Host) (m m1 : Machine)
    (hf : fetch h (loadN m.mem 0 4) m = .ok m1)
    (hop : validate_op (op_op m1.mem (loadN m.mem 0 4)) = false) :
    ((List.range 256).filter (fun op => validate_op op)).length = 16
      ∧ (∀ op, validate_op op = true → op < 256)
      ∧ cycle h m = .fatal Error.InvalidOp m1 := by
  refine ⟨by decide, ?_, cycle_invalid_op hf hop⟩
  intro op hv
  rcases (validate_op_iff op).mp hv with e | e | e | e | e | e | e | e | e | e | e | e | e | e
    | e | e <;> subst e <;> decide

/-- The opcode byte 0 at `ip = 16`: sixteen bytes are accepted, and this one
ends the cycle in `InvalidOp`. -/
theorem opcode_count_witness :
    ((List.range 256).filter (fun op => validate_op op)).length = 16
      ∧ (∀ op, validate_op op = true → op < 256)
      ∧ cycle host0 (boot 4096 (instr 0 tU tU tU 0 0 0))
          = .fatal Error.InvalidOp (boot 4096 (instr 0 tU tU tU 0 0 0)) :=
  opcode_count host0 (boot 4096 (instr 0 tU tU tU 0 0 0))
    (boot 4096 (instr 0 tU tU tU 0 0 0)) rfl (by decide)

/-- C17 fails as stated: of the 256 byte values `validate_op` accepts
sixteen, not fifteen. -/
theorem opcode_count_counterexample :
    ((List.range 256).filter (fun op => validate_op op)).length = 16
      ∧ ¬ ((List.range 256).filter (fun op => validate_op op)).length = 15 :=
  ⟨by decide, by decide⟩

/-! ## The count of the block transfer -/

/-- C18 fails on the code: `@` with tags `c c u`, destination 4080, source
1024 and source 2 read from cell 0 at `ip = 16` passes validation with the
count 16 (`4080 + 16 ≤ 4096`), the break stays 4096, and the executor, which
reads the count after cell 0 has been advanced to 32, copies 32 bytes: its
write range ends at 4112, and the byte at offset 4100, past the break,
receives the source byte 9. -/
theorem validated_copy_overrun :
    validate host0 overrun_machine = .ok overrun_machine
      ∧ block_count host0 overrun_machine.mem 16 = 16
      ∧ block_count host0 (advance overrun_machine.mem 16) 16 = 32
      ∧ write_range host0 (advance overrun_machine.mem 16) 16 = (4080, 32)
      ∧ (cycle host0 overrun_machine).machine.brk = 4096
      ∧ ¬ (4080 + block_count host0 (advance overrun_machine.mem 16) 16
            ≤ (cycle host0 overrun_machine).machine.brk)
      ∧ overrun_machine.mem 4100 = 0
      ∧ (cycle host0 overrun_machine).machine.mem 4100 = 9 :=
  ⟨rfl, by decide, by decide, by decide, by decide, by decide, by decide, by decide⟩

/-! ## Bitwise operators -/

theorem validate_arg_indirect (h : Host) (addr : Nat) {t : Nat} (m : Machine)
    (ht : is_indirect t) :
    validate_arg h addr t m = assert_brk h (u32 (addr + valsize t)) m := by
  rcases ht with e | e | e | e | e | e | e | e | e | e <;> subst e <;> rfl

theorem valsize_le (t : Nat) : valsize t ≤ 8 := by
  by_cases ht : is_tag t
  · rcases ht with e | e | e | e | e | e | e | e | e | e | e | e | e <;> subst e <;> decide
  · rw [(invalid_tag ht).2.2.1]
    omega

/-- A cell of at most 16 bytes whose end, as `uint32_t`, lies within the
break consists of bytes that growth of the buffer keeps. -/
theorem cell_kept {s w b : Nat} (hw : w ≤ 16) (hb : u32 (s + w) ≤ b) :
    ∀ x, s ≤ x → x < s + w → x < b ∨ brk_max ≤ x := by
  intro x h1 h2
  unfold u32 at hb
  unfold brk_max
  omega

/-- The source-1 cell of a validated instruction has been ensured. -/
theorem validated_src1 {h : Host} {m mv : Machine} (hv : validate h m = .ok mv)
    (ht : is_indirect (op_src1_type mv.mem (loadN m.mem 0 4))) :
    u32 (loadN mv.mem (src1_fld (loadN m.mem 0 4)) 4
        + valsize (op_src1_type mv.mem (loadN m.mem 0 4))) ≤ mv.brk := by
  obtain ⟨m1, m4, e1, _, e3, e4⟩ := validate_ok hv
  simp only [validate_args, bind_ok] at e3
  obtain ⟨m2, e2, m3, e3, e5⟩ := e3
  have hf := (fetch_ok e1).2
  have g12 := validate_arg_ok e2
  have g1v := (validate_after_fetch e1).1 mv hv
  have s2 := instr_stable g12 hf
  have sv := instr_stable g1v hf
  generalize loadN m.mem 0 4 = ip at *
  have ety : op_src1_type m2.mem ip = op_src1_type mv.mem ip := by
    unfold op_src1_type
    rw [s2 _ (by omega) (by omega), sv _ (by omega) (by omega)]
  have eop : loadN m2.mem (src1_fld ip) 4 = loadN mv.mem (src1_fld ip) 4 := by
    unfold src1_fld
    rw [loadN_congr 4 (ip + 8) (fun x h1 h2 => s2 x (by omega) (by omega)),
      loadN_congr 4 (ip + 8) (fun x h1 h2 => sv x (by omega) (by omega))]
  rw [ety, eop, validate_arg_indirect h _ m2 ht] at e3
  have h3 := (assert_brk_ok e3).2
  have g3 := (validate_arg_ok e5).1
  have g4 := (validate_specific_ok e4).1
  omega

theorem readval_invalid (mem : Mem) (fld : Nat) {t : Nat} (ht : ¬ is_tag t) :
    readval mem fld t = .int 0 := by
  simp only [is_tag, not_or] at ht
  obtain ⟨h1, h2, h3, h4, h5, h6, h7, h8, h9, h10, h11, h12, h13⟩ := ht
  simp only [readval, h1, h2, h3, h4, h5, h6, h7, h8, h9, h10, h11, h12, h13, if_false]

/-- What `val` reads depends on the operand field only and, for an indirect
tag, on the cell the operand points to. -/
theorem readval_congr {mem mem' : Mem} {fld fld' : Nat} (t : Nat)
    (h1 : loadN mem fld 4 = loadN mem' fld' 4)
    (h2 : is_indirect t →
      loadN mem (loadN mem fld 4) (valsize t) = loadN mem' (loadN mem fld 4) (valsize t)) :
    readval mem fld t = readval mem' fld' t := by
  by_cases ht : is_tag t
  · rcases ht with e | e | e | e | e | e | e | e | e | e | e | e | e <;> subst e
    · simp [readval, tU, h1]
    · simp [readval, tU, tI, h1]
    · simp [readval, tU, tI, tF, h1]
    all_goals
      have h3 := h2 (by decide)
      simp [readval, valsize, tU, tI, tF, tz, tl, td, tu, ti, tf, th, ts, tc, tb] at h3 ⊢
      rw [← h1, h3]
  · rw [readval_invalid mem fld ht, readval_invalid mem' fld' ht]

theorem indirect_ctype {t : Nat} (ht : is_indirect t) :
    ∃ c, dst_ctype t = some c ∧ c.size = valsize t
      ∧ ∀ (mem : Mem) (ip : Nat), dst_addr mem ip t = loadN mem (dst_fld ip) 4 := by
  rcases ht with e | e | e | e | e | e | e | e | e | e <;> subst e
  · exact ⟨.u64, rfl, rfl, fun _ _ => rfl⟩
  · exact ⟨.i64, rfl, rfl, fun _ _ => rfl⟩
  · exact ⟨.f64, rfl, rfl, fun _ _ => rfl⟩
  · exact ⟨.u32, rfl, rfl, fun _ _ => rfl⟩
  · exact ⟨.i32, rfl, rfl, fun _ _ => rfl⟩
  · exact ⟨.f32, rfl, rfl, fun _ _ => rfl⟩
  · exact ⟨.u16, rfl, rfl, fun _ _ => rfl⟩
  · exact ⟨.i16, rfl, rfl, fun _ _ => rfl⟩
  · exact ⟨.u8, rfl, rfl, fun _ _ => rfl⟩
  · exact ⟨.i8, rfl, rfl, fun _ _ => rfl⟩

theorem unary_op_store (h : Host) (cop : Nat) (mem : Mem) (ip : Nat) {c : CType}
    (hc : dst_ctype (op_dst_type mem ip) = some c) :
    unary_op h false cop mem ip
      = storeN mem (dst_addr mem ip (op_dst_type mem ip)) c.size
          (unary_cop h c cop (val h mem (src1_fld ip) (op_src1_type mem ip) c)) := by
  unfold unary_op
  simp only [Bool.false_eq_true, if_false, hc]

/-- A validated `=` with an indirect destination tag completes its cycle by
storing the converted source-1 value at the destination cell. -/
theorem cycle_assign {h : Host} {m mv : Machine} (hcell : 4 ≤ m.brk)
    (hv : validate h m = .ok mv) (hop : op_op mv.mem (loadN m.mem 0 4) = oAssign)
    {c : CType} (hc : dst_ctype (op_dst_type mv.mem (loadN m.mem 0 4)) = some c)
    (hdst : ∀ (mem : Mem) (ip : Nat),
      dst_addr mem ip (op_dst_type mv.mem (loadN m.mem 0 4)) = loadN mem (dst_fld ip) 4) :
    4 ≤ loadN m.mem 0 4
      ∧ cycle h m = .running
          { mem := storeN (advance mv.mem (loadN m.mem 0 4))
              (loadN mv.mem (dst_fld (loadN m.mem 0 4)) 4) c.size
              (unary_cop h c oAssign
                (val h (advance mv.mem (loadN m.mem 0 4)) (src1_fld (loadN m.mem 0 4))
                  (op_src1_type mv.mem (loadN m.mem 0 4)) c)),
            brk := mv.brk } := by
  have hne : op_op mv.mem (loadN m.mem 0 4) ≠ 0 := by rw [hop]; decide
  obtain ⟨hip, hcy, hop0⟩ := validated_setup hcell hv hne
  obtain ⟨_, hdt1, ht11, _, _, _, _⟩ := advance_fields mv.mem hip
  refine ⟨hip, ?_⟩
  generalize loadN m.mem 0 4 = ip at *
  have hst1 := unary_op_store h oAssign (advance mv.mem ip) ip (c := c) (by rw [hdt1]; exact hc)
  rw [hdt1, ht11, hdst, loadN_advance_out mv.mem ip 4 (by unfold dst_fld; omega)] at hst1
  rw [hcy, dispatch_oAssign (hop0.trans hop), hst1]
  rfl

/-- C11, as amended: let two `=` instructions be executed one after the
other, both validated, the second with the tags and the destination and
source-1 operands of the first.  When the destination tag is indirect and
source 1 is immediate, or is a cell that lies past cell 0 and does not
overlap the destination cell, the second cycle completes and leaves every
byte other than cell 0 that existed after the first cycle (below its break,
or at or past the ceiling) as the first cycle left it.  When the destination
cell misses cell 0, the second instruction is the one at `ip + 16`.
Both cycles are taken `settled` and `inside`: neither validation has grown
the buffer after its fetch check and every access ends at or below the break. -/
theorem assign_twice (h : Host) (m mv m1 mv2 : Machine) (hcell : 4 ≤ m.brk)
    (hv : validate h m = .ok mv) (_hst : settled h m)
    (_hin : inside h mv (loadN m.mem 0 4)) (hop : op_op mv.mem (loadN m.mem 0 4) = oAssign)
    (hc1 : cycle h m = .running m1)
    (hv2 : validate h m1 = .ok mv2) (_hst2 : settled h m1)
    (_hin2 : inside h mv2 (loadN m1.mem 0 4)) (hop2 : op_op mv2.mem (loadN m1.mem 0 4) = oAssign)
    (hdt : op_dst_type mv2.mem (loadN m1.mem 0 4) = op_dst_type mv.mem (loadN m.mem 0 4))
    (ht1 : op_src1_type mv2.mem (loadN m1.mem 0 4) = op_src1_type mv.mem (loadN m.mem 0 4))
    (hdo : loadN mv2.mem (dst_fld (loadN m1.mem 0 4)) 4
      = loadN mv.mem (dst_fld (loadN m.mem 0 4)) 4)
    (hso : loadN mv2.mem (src1_fld (loadN m1.mem 0 4)) 4
      = loadN mv.mem (src1_fld (loadN m.mem 0 4)) 4)
    (hdi : is_indirect (op_dst_type mv.mem (loadN m.mem 0 4)))
    (hsrc : is_indirect (op_src1_type mv.mem (loadN m.mem 0 4)) →
      4 ≤ loadN mv.mem (src1_fld (loadN m.mem 0 4)) 4
      ∧ (loadN mv.mem (src1_fld (loadN m.mem 0 4)) 4
            + valsize (op_src1_type mv.mem (loadN m.mem 0 4))
          ≤ loadN mv.mem (dst_fld (loadN m.mem 0 4)) 4
        ∨ loadN mv.mem (dst_fld (loadN m.mem 0 4)) 4
            + valsize (op_dst_type mv.mem (loadN m.mem 0 4))
          ≤ loadN mv.mem (src1_fld (loadN m.mem 0 4)) 4)) :
    ∃ m2, cycle h m1 = .running m2
      ∧ (∀ x, 4 ≤ x → x < m1.brk ∨ brk_max ≤ x → m2.mem x = m1.mem x)
      ∧ ((∀ x, x < 4 →
          ¬ (loadN mv.mem (dst_fld (loadN m.mem 0 4)) 4 ≤ x
            ∧ x < loadN mv.mem (dst_fld (loadN m.mem 0 4)) 4
                + valsize (op_dst_type mv.mem (loadN m.mem 0 4)))) →
          loadN m1.mem 0 4 = u32 (loadN m.mem 0 4 + op_size)) := by
  have hs1 := fun ht => validated_src1 hv ht
  have gv := (validate_ok_grows hv).1
  have g2 := (validate_ok_grows hv2).1
  obtain ⟨c, hc, hsz, hdst⟩ := indirect_ctype hdi
  obtain ⟨hip, hcy1⟩ := cycle_assign hcell hv hop hc hdst
  rw [hcy1] at hc1
  have hm1 := (Outcome.running.inj hc1).symm
  have hmem1 := congrArg Machine.mem hm1
  have hbrk1 : m1.brk = mv.brk := by rw [hm1]
  clear hc1 hm1 hcy1
  simp only at hmem1
  have hcell2 : 4 ≤ m1.brk := by rw [hbrk1]; exact Nat.le_trans hcell gv.1
  obtain ⟨hip2, hcy2⟩ := cycle_assign hcell2 hv2 hop2 (by rw [hdt]; exact hc)
    (by rw [hdt]; exact hdst)
  rw [ht1, hdo] at hcy2
  have hlast : (∀ x, x < 4 →
      ¬ (loadN mv.mem (dst_fld (loadN m.mem 0 4)) 4 ≤ x
        ∧ x < loadN mv.mem (dst_fld (loadN m.mem 0 4)) 4
            + valsize (op_dst_type mv.mem (loadN m.mem 0 4)))) →
      loadN m1.mem 0 4 = u32 (loadN m.mem 0 4 + op_size) := by
    intro hmiss
    rw [← loadN_advance mv.mem (loadN m.mem 0 4), hmem1]
    apply loadN_congr
    intro x _ h2
    exact storeN_out _ _ (by rw [hsz]; exact hmiss x (by omega))
  refine ⟨_, hcy2, ?_, hlast⟩
  clear hlast hcy2
  generalize loadN m.mem 0 4 = ip at *
  generalize loadN m1.mem 0 4 = ip2 at *
  -- the value of source 1 is the same in both cycles
  have hop1 : loadN (advance mv.mem ip) (src1_fld ip) 4
      = loadN (advance mv2.mem ip2) (src1_fld ip2) 4 := by
    rw [loadN_advance_out mv.mem ip 4 (by unfold src1_fld; omega),
      loadN_advance_out mv2.mem ip2 4 (by unfold src1_fld; omega), hso]
  have hrv : readval (advance mv.mem ip) (src1_fld ip) (op_src1_type mv.mem ip)
      = readval (advance mv2.mem ip2) (src1_fld ip2) (op_src1_type mv.mem ip) := by
    apply readval_congr _ hop1
    intro hind
    obtain ⟨hs4, hdisj⟩ := hsrc hind
    have hkept := cell_kept (by have := valsize_le (op_src1_type mv.mem ip); omega) (hs1 hind)
    rw [loadN_advance_out mv.mem ip 4 (by unfold src1_fld; omega)]
    rw [loadN_advance_out mv.mem ip _ hs4, loadN_advance_out mv2.mem ip2 _ hs4]
    have e1 : loadN mv2.mem (loadN mv.mem (src1_fld ip) 4) (valsize (op_src1_type mv.mem ip))
        = loadN m1.mem (loadN mv.mem (src1_fld ip) 4) (valsize (op_src1_type mv.mem ip)) :=
      loadN_congr _ _ (fun x h1 h2 => g2.2.2 x (by rw [hbrk1]; exact hkept x h1 h2))
    rw [e1, hmem1, loadN_storeN_disjoint _ _ (by rw [hsz]; exact hdisj),
      loadN_advance_out mv.mem ip _ hs4]
  have hval : val h (advance mv2.mem ip2) (src1_fld ip2) (op_src1_type mv.mem ip) c
      = val h (advance mv.mem ip) (src1_fld ip) (op_src1_type mv.mem ip) c := by
    unfold val
    rw [hrv]
  intro x h4 hx
  show storeN (advance mv2.mem ip2) _ _ _ x = m1.mem x
  rw [hval]
  by_cases hin : loadN mv.mem (dst_fld ip) 4 ≤ x ∧ x < loadN mv.mem (dst_fld ip) 4 + c.size
  · rw [storeN_in _ _ hin.1 hin.2, hmem1, storeN_in _ _ hin.1 hin.2]
  · rw [storeN_out _ _ hin, advance_out mv2.mem ip2 h4]
    exact g2.2.2 x hx

/-- Two copies of `=` with tags `u u U`, destination 64 and source 16 (the
first four bytes of the first instruction, a cell apart from cell 0 and from
the destination): the second cycle completes, changes no byte past cell 0,
and is the instruction at 32. -/
theorem assign_twice_witness :
    ∃ m2, cycle host0 (cycle host0 (boot2 4096 (instr oAssign tu tu tU 64 16 0))).machine
        = .running m2
      ∧ (∀ x, 4 ≤ x → x < 4096 ∨ brk_max ≤ x →
          m2.mem x = (cycle host0 (boot2 4096 (instr oAssign tu tu tU 64 16 0))).machine.mem x)
      ∧ loadN (cycle host0 (boot2 4096 (instr oAssign tu tu tU 64 16 0))).machine.mem 0 4
          = 32 := by
  obtain ⟨m2, e, hmem, hip⟩ := assign_twice host0
    (boot2 4096 (instr oAssign tu tu tU 64 16 0))
    (boot2 4096 (instr oAssign tu tu tU 64 16 0))
    (cycle host0 (boot2 4096 (instr oAssign tu tu tU 64 16 0))).machine
    (cycle host0 (boot2 4096 (instr oAssign tu tu tU 64 16 0))).machine
    (by decide) rfl (by decide) (by decide) (by decide) rfl rfl (by decide) (by decide)
    (by decide) (by decide) (by decide) (by decide)
    (by decide) (by decide) (by decide)
  exact ⟨m2, e, hmem, (hip (by decide)).trans (by decide)⟩

/-- C11 fails as stated, in three ways; in each, the machine holds the same
`=` instruction at 16 and at 32, both cycles pass validation and complete,
and a byte other than cell 0 differs between the memory after both and the
memory after the first.  With tags `u u U`, destination 64 and source 0 the
source is cell 0: the first cycle stores 32 at 64 and the second stores 48.
With tags `h u U`, destination 64 and source 63 the cells overlap: the first
cycle leaves 2 in the byte at 65 and the second 1.  With tags `U U U` the
destination is immediate: the second cycle stores 7 into its own destination
field at 36, which the first cycle left 0. -/
theorem assign_twice_counterexample :
    (validate host0 ipsrc_machine = .ok ipsrc_machine
      ∧ cycle host0 ipsrc_machine = .running (cycle host0 ipsrc_machine).machine
      ∧ validate host0 (cycle host0 ipsrc_machine).machine
          = .ok (cycle host0 ipsrc_machine).machine
      ∧ loadN (cycle host0 ipsrc_machine).machine.mem 0 4 = 16 + 16
      ∧ (∀ i, i < 16 →
          (cycle host0 ipsrc_machine).machine.mem (32 + i) = ipsrc_machine.mem (16 + i))
      ∧ cycle host0 (cycle host0 ipsrc_machine).machine
          = .running (cycle host0 (cycle host0 ipsrc_machine).machine).machine
      ∧ (cycle host0 ipsrc_machine).machine.mem 64 = 32
      ∧ (cycle host0 (cycle host0 ipsrc_machine).machine).machine.mem 64 = 48)
    ∧ (validate host0 overlap_machine = .ok overlap_machine
      ∧ cycle host0 overlap_machine = .running (cycle host0 overlap_machine).machine
      ∧ validate host0 (cycle host0 overlap_machine).machine
          = .ok (cycle host0 overlap_machine).machine
      ∧ loadN (cycle host0 overlap_machine).machine.mem 0 4 = 16 + 16
      ∧ (∀ i, i < 16 →
          (cycle host0 overlap_machine).machine.mem (32 + i) = overlap_machine.mem (16 + i))
      ∧ cycle host0 (cycle host0 overlap_machine).machine
          = .running (cycle host0 (cycle host0 overlap_machine).machine).machine
      ∧ (cycle host0 overlap_machine).machine.mem 65 = 2
      ∧ (cycle host0 (cycle host0 overlap_machine).machine).machine.mem 65 = 1)
    ∧ (validate host0 immdst_machine = .ok immdst_machine
      ∧ cycle host0 immdst_machine = .running (cycle host0 immdst_machine).machine
      ∧ validate host0 (cycle host0 immdst_machine).machine
          = .ok (cycle host0 immdst_machine).machine
      ∧ loadN (cycle host0 immdst_machine).machine.mem 0 4 = 16 + 16
      ∧ (∀ i, i < 16 →
          (cycle host0 immdst_machine).machine.mem (32 + i) = immdst_machine.mem (16 + i))
      ∧ cycle host0 (cycle host0 immdst_machine).machine
          = .running (cycle host0 (cycle host0 immdst_machine).machine).machine
      ∧ (cycle host0 immdst_machine).machine.mem 36 = 0
      ∧ (cycle host0 (cycle host0 immdst_machine).machine).machine.mem 36 = 7) :=
  ⟨⟨rfl, rfl, rfl, by decide, by decide, rfl, by decide, by decide⟩,
    ⟨rfl, rfl, rfl, by decide, by decide, rfl, by decide, by decide⟩,
    ⟨rfl, rfl, rfl, by decide, by decide, rfl, by decide, by decide⟩⟩

/-! ## Settled cycles inside the buffer -/

theorem assert_brk_same {h : Host} {addr : Nat} {m m' : Machine}
    (e : assert_brk h addr m = .ok m') : m' = m ∨ m.brk < m'.brk := by
  unfold assert_brk at e
  split at e
  · cases e
  · cases e
    rcases check_brk_cases h brk_max addr m with ⟨_, hc⟩ | ⟨_, _, hc⟩ | ⟨_, _, _, hc⟩
      | ⟨hlt, _, fresh, _, hc⟩
    · rw [hc]; exact Or.inl rfl
    · rw [hc]; exact Or.inl rfl
    · rw [hc]; exact Or.inl rfl
    · rw [hc]; exact Or.inr hlt

theorem validate_arg_same {h : Host} {addr t : Nat} {m m' : Machine}
    (e : validate_arg h addr t m = .ok m') : m' = m ∨ m.brk < m'.brk := by
  unfold validate_arg at e
  split_ifs at e
  · cases e; exact Or.inl rfl
  · exact assert_brk_same e
  · exact assert_brk_same e
  · exact assert_brk_same e
  · exact assert_brk_same e

theorem same_trans {a b c : Machine} (h1 : b = a ∨ a.brk < b.brk)
    (h2 : c = b ∨ b.brk < c.brk) : c = a ∨ a.brk < c.brk := by
  rcases h1 with rfl | h1
  · exact h2
  · rcases h2 with rfl | h2
    · exact Or.inr h1
    · exact Or.inr (Nat.lt_trans h1 h2)

theorem validate_args_same {h : Host} {ip : Nat} {m m' : Machine}
    (e : validate_args h ip m = .ok m') : m' = m ∨ m.brk < m'.brk := by
  simp only [validate_args, bind_ok] at e
  obtain ⟨m2, e2, m3, e3, e4⟩ := e
  exact same_trans (same_trans (validate_arg_same e2) (validate_arg_same e3))
    (validate_arg_same e4)

theorem validate_specific_same {h : Host} {ip : Nat} {m m' : Machine}
    (e : validate_specific h ip m = .ok m') : m' = m ∨ m.brk < m'.brk := by
  unfold validate_specific at e
  split_ifs at e
  · simp only [bind_ok] at e
    obtain ⟨m5, e5, e6⟩ := e
    exact same_trans (assert_brk_same e5) (assert_brk_same e6)
  · cases e; exact Or.inl rfl
  · cases e; exact Or.inl rfl

/-- On a settled cycle validation has not touched the machine the fetch check
left: no `check_brk` after the fetch has reached `realloc`, and the pointer
`op` of the source addresses the instruction until the end of the cycle. -/
theorem settled_validated {h : Host} {m mv : Machine} (hv : validate h m = .ok mv)
    (hst : settled h m) : mv = fetched h m := by
  obtain ⟨m1, m4, e1, _, e3, e4⟩ := validate_ok hv
  have hb : (cycle h m).machine.brk = mv.brk := by
    rw [cycle_validated hv]
    exact dispatch_brk _ _ _ _
  have hm1 := fetch_eq_fetched e1
  have hs := same_trans (validate_args_same e3) (validate_specific_same e4)
  rw [hm1] at hs
  rcases hs with e | hlt
  · exact e
  · have : (cycle h m).machine.brk = (fetched h m).brk := hst
    omega

theorem dst_cell_inside {mem : Mem} {brk ip t : Nat} (hip : ip + op_size ≤ brk)
    (hc : cell_inside mem brk (dst_fld ip) t) {x : Nat}
    (hx : valaddr mem (dst_fld ip) t ≤ x ∧ x < valaddr mem (dst_fld ip) t + valsize t) :
    x < brk := by
  by_cases ht : is_tag t
  · rcases ht with e | e | e | ht
    · subst e
      simp only [valaddr, valsize, if_true, dst_fld, op_size] at hip hx
      omega
    · subst e
      simp only [valaddr, valsize, dst_fld, op_size, tU, tI] at hip hx
      norm_num at hx
      omega
    · subst e
      simp only [valaddr, valsize, dst_fld, op_size, tU, tI, tF] at hip hx
      norm_num at hx
      omega
    · have hv : valaddr mem (dst_fld ip) t = loadN mem (dst_fld ip) 4 := by
        rcases ht with e | e | e | e | e | e | e | e | e | e <;> subst e <;> rfl
      have := hc ht
      rw [hv] at hx
      omega
  · rw [(invalid_tag ht).2.2.1] at hx
    omega

/-- On a validated cycle whose accesses lie inside the buffer, no byte at or
past the break is touched: the memory outside the buffer after the cycle is
the validated memory. -/
theorem inside_writes {h : Host} {m mv : Machine} (hcell : 4 ≤ m.brk)
    (hv : validate h m = .ok mv) (hin : inside h mv (loadN m.mem 0 4)) :
    ∀ x, mv.brk ≤ x → (cycle h m).machine.mem x = mv.mem x := by
  intro x hx
  have hvalid := validated_op_valid hv
  have hne := validate_op_ne_zero hvalid
  obtain ⟨hip, hcy, hop0⟩ := validated_setup hcell hv hne
  obtain ⟨_, hdt, _, _, hda, hsa, _⟩ := advance_fields mv.mem hip
  have gv := (validate_ok_grows hv).1
  obtain ⟨hins, hd, _, _, hblk⟩ := hin
  generalize loadN m.mem 0 4 = ip at *
  have h4 : 4 ≤ x := by have := gv.1; omega
  rw [hcy, dispatch_frame, advance_out mv.mem ip h4]
  intro hr
  by_cases hb : op_op mv.mem ip = oBlock
  · rw [write_range_block (hop0.trans hb), hda, hdt] at hr
    have := (hblk hb).1
    simp only at hr
    omega
  · by_cases hval : is_value_op (op_op mv.mem ip)
    · have hsub := @write_range_sub_dst h (advance mv.mem ip) ip
        (by rw [hop0]; exact hval) x hr
      rw [hda, hdt] at hsub
      have := dst_cell_inside hins hd hsub
      omega
    · have hz : write_range h (advance mv.mem ip) ip = (0, 0) := by
        rcases (validate_op_iff _).mp hvalid with e | e | e | e | e | e | e | e | e | e | e | e
          | e | e | e | e
        · exact write_range_nop (hop0.trans e)
        · exact absurd (Or.inl e) hval
        · exact absurd e hb
        · exact absurd (Or.inr (Or.inl e)) hval
        · exact absurd (Or.inr (Or.inr (Or.inl e))) hval
        · exact absurd (Or.inr (Or.inr (Or.inr (Or.inl e)))) hval
        · exact absurd (Or.inr (Or.inr (Or.inr (Or.inr (Or.inl e))))) hval
        · exact absurd (Or.inr (Or.inr (Or.inr (Or.inr (Or.inr (Or.inl e)))))) hval
        · exact absurd (Or.inr (Or.inr (Or.inr (Or.inr (Or.inr (Or.inr (Or.inl e))))))) hval
        · exact absurd
            (Or.inr (Or.inr (Or.inr (Or.inr (Or.inr (Or.inr (Or.inr (Or.inl e)))))))) hval
        · exact absurd
            (Or.inr (Or.inr (Or.inr (Or.inr (Or.inr (Or.inr (Or.inr (Or.inr (Or.inl e)))))))))
            hval
        · exact absurd
            (Or.inr (Or.inr (Or.inr (Or.inr (Or.inr (Or.inr (Or.inr (Or.inr (Or.inr
              (Or.inl e)))))))))) hval
        · exact absurd
            (Or.inr (Or.inr (Or.inr (Or.inr (Or.inr (Or.inr (Or.inr (Or.inr (Or.inr
              (Or.inr (Or.inl e))))))))))) hval
        · exact absurd
            (Or.inr (Or.inr (Or.inr (Or.inr (Or.inr (Or.inr (Or.inr (Or.inr (Or.inr
              (Or.inr (Or.inr (Or.inl e)))))))))))) hval
        · exact absurd
            (Or.inr (Or.inr (Or.inr (Or.inr (Or.inr (Or.inr (Or.inr (Or.inr (Or.inr
              (Or.inr (Or.inr (Or.inr e)))))))))))) hval
        · unfold write_range
          rw [hop0, e]
          rfl
      rw [hz] at hr
      simp only at hr
      omega

end Nevm
